import Mathlib

/-!
Verification of the QDD2 quote-attribution pipeline.

Shallow embedding of the Python sources under `src/`:
  * `src/app/text_utils.py`, `src/quote_backend/utils/text_utils.py`
    (`normalize_korean_phrase`, the two files hold the identical function),
  * `src/app/keywords.py`, `src/quote_backend/core/keywords.py`
    (`rerank_with_ner_boost`, `extract_keywords_with_ner`'s index build),
  * `src/app/entities.py` (`merge_ner_entities`),
  * `src/app/name_resolution.py` (`resolve_person_name_en`,
    `get_wikidata_english_name`),
  * `src/app/query_builder.py` and `src/qdd2/query_builder.py`
    (`generate_search_query` and its helpers),
  * `src/quote_backend/services/search_service.py` (`SearchService.search`).

External capabilities (translation, Wikidata HTTP, search backends) are
modelled as explicit function arguments; a call that may raise in Python is
an `Except Unit`-valued argument, and every catching call site is mirrored.
Python floats that only carry keyword scores are modelled as rationals.
Python character predicates (`str.lower`, `\w`, `\s`, `\d`) are modelled on
the ASCII and Hangul ranges, which cover every character these claims touch.
-/

namespace QDD2

/-! ## Basic Python string operations -/

/-- Python `str.lower` restricted to ASCII case mapping (Hangul and the
punctuation appearing in this code base have no case). -/
def pyLower (c : Char) : Char := c.toLower

/-- Python `a in b` on strings: contiguous substring test. -/
def pyIn (a b : String) : Bool := decide (a.data <:+: b.data)

/-- Hangul syllable block U+AC00..U+D7A3 (the range of the `[가-힣]` class). -/
def isHangulSyl (c : Char) : Bool :=
  0xAC00 ≤ c.toNat && c.toNat ≤ 0xD7A3

/-- Hangul compatibility jamo U+3131..U+318E (letters for Python `\w`). -/
def isHangulJamo (c : Char) : Bool :=
  0x3131 ≤ c.toNat && c.toNat ≤ 0x318E

/-- Python `\w` (word character) on the alphabets this program meets:
ASCII alphanumerics, underscore, Hangul syllables and jamo. -/
def isPyWord (c : Char) : Bool :=
  c.isAlphanum || c = '_' || isHangulSyl c || isHangulJamo c

/-- Split a character list at every separator character (Python
`str.split(sep)` with a one-character separator: empty fragments kept). -/
def splitOnP (p : Char → Bool) : List Char → List (List Char)
  | [] => [[]]
  | c :: rest =>
    if p c then [] :: splitOnP p rest
    else
      match splitOnP p rest with
      | [] => [[c]]
      | h :: t => (c :: h) :: t

/-- Python `str.split()` with no argument: split on whitespace runs,
dropping empty fragments. -/
def pySplit (s : String) : List String :=
  ((splitOnP (fun c => c.isWhitespace) s.data).map String.mk).filter (· ≠ "")

/-- Python `str.strip()`: drop leading and trailing whitespace. -/
def pyStrip (s : String) : String :=
  String.mk (((s.data.dropWhile (·.isWhitespace)).reverse.dropWhile
    (·.isWhitespace)).reverse)

/-- Python `" ".join(l)`. -/
def joinSp : List String → String
  | [] => ""
  | [x] => x
  | x :: xs => x ++ " " ++ joinSp xs

/-- `s or None` for strings: `none` exactly when the string is empty. -/
def strOpt (s : String) : Option String := if s = "" then none else some s

/-! ## `normalize_korean_phrase` (src/app/text_utils.py lines 16-24 and
src/quote_backend/utils/text_utils.py lines 24-38, identical bodies)

The Python body is `re.sub(r"[·‧ㆍ\\-_/\\s]", "", text).lower()`.  Inside the
raw string each `\\` is a literal backslash, so the character class the
`re` module sees is: `·`, `‧`, `ㆍ`, the range backslash..underscore
(backslash, right bracket, caret, underscore), `/`, backslash again, and the
letter `s`.  It does NOT contain the whitespace class or the hyphen. -/

/-- The character class actually matched by `re.sub(r"[·‧ㆍ\\-_/\\s]", ...)`. -/
def isNormSep (c : Char) : Bool :=
  c = '·' || c = '‧' || c = 'ㆍ' || (0x5C ≤ c.toNat && c.toNat ≤ 0x5F) ||
    c = '/' || c = 's'

/-- `normalize_korean_phrase`: remove the matched characters, then lower. -/
def normalize_korean_phrase (s : String) : String :=
  String.mk ((s.data.filter fun c => !isNormSep c).map pyLower)

/-! ## Keyword reranker (src/app/keywords.py lines 13-46 and
src/quote_backend/core/keywords.py lines 13-56, identical bodies)

`rerank_with_ner_boost(keywords, entities, alpha, beta, relation_keywords)`.
The `entities` argument is only read through `e["word"]`, so it is modelled
as the list of those words; `relation_keywords or config.RELATION_KEYWORDS`
falls back to the configured set when the argument is `None` or empty, which
the caller of the embedding resolves (the sets are only membership-tested,
so list order is irrelevant).  Scores are rationals in place of floats. -/

/-- `config.RELATION_KEYWORDS` (src/app/config.py). -/
def RELATION_KEYWORDS : List String :=
  ["회담", "협력", "관계", "회의", "발표", "대화", "담화", "중재",
   "교섭", "협상", "동맹", "문제", "논란", "비판", "우려", "방침"]

/-- `any(et and et in normalized for et in ent_terms)`: some nonempty
normalized term occurs inside the normalized phrase. -/
def hasTermHit (terms : List String) (normalized : String) : Bool :=
  terms.any fun t => t ≠ "" && pyIn t normalized

/-- The bonus assigned to one phrase: 1.0 when an entity term and a relation
term both occur, 0.6 when exactly one kind occurs, 0.0 otherwise. -/
def nerBonus (ent_terms rel_terms : List String) (phrase : String) : ℚ :=
  let normalized := normalize_korean_phrase phrase
  let has_entity := hasTermHit ent_terms normalized
  let has_relation := hasTermHit rel_terms normalized
  if has_entity && has_relation then 1
  else if has_entity || has_relation then 3/5
  else 0

/-- The rescoring pass: `alpha * score + beta * bonus` per candidate. -/
def rescoreAll (keywords : List (String × ℚ)) (ent_terms rel_terms : List String)
    (alpha beta : ℚ) : List (String × ℚ) :=
  keywords.map fun p => (p.1, alpha * p.2 + beta * nerBonus ent_terms rel_terms p.1)

/-- Insert into a descending-sorted list, before the first entry whose score
is not larger; with `sortScoreDesc` below this is the stable descending sort
that Python's `sorted(..., key=lambda x: x[1], reverse=True)` computes. -/
def insScoreDesc (x : String × ℚ) : List (String × ℚ) → List (String × ℚ)
  | [] => [x]
  | y :: ys => if y.2 > x.2 then y :: insScoreDesc x ys else x :: y :: ys

/-- Stable sort by score, descending (Python's stable `sorted` with
`reverse=True`; a stable sort by one key is unique, so insertion sort is the
same function). -/
def sortScoreDesc : List (String × ℚ) → List (String × ℚ)
  | [] => []
  | x :: xs => insScoreDesc x (sortScoreDesc xs)

/-- The `deduped` dict build: walk the sorted list, keep the first entry per
normalized phrase, in first-kept order (Python dict insertion order). -/
def dedupByNorm : List (String × ℚ) → List String → List (String × ℚ)
  | [], _ => []
  | p :: ps, seen =>
    if normalize_korean_phrase p.1 ∈ seen then dedupByNorm ps seen
    else p :: dedupByNorm ps (normalize_korean_phrase p.1 :: seen)

/-- `rerank_with_ner_boost`: rescore, sort descending, deduplicate by
normalized phrase, and sort the kept values descending again. -/
def rerank_with_ner_boost (keywords : List (String × ℚ)) (entities : List String)
    (alpha beta : ℚ) (relation_keywords : List String) : List (String × ℚ) :=
  let rel_terms := (if relation_keywords = [] then RELATION_KEYWORDS
                    else relation_keywords).map normalize_korean_phrase
  let ent_terms := entities.map normalize_korean_phrase
  let rescored := rescoreAll keywords ent_terms rel_terms alpha beta
  sortScoreDesc (dedupByNorm (sortScoreDesc rescored) [])

/-! ### Ordering, stability and deduplication lemmas for the reranker -/

theorem insScoreDesc_perm (x : String × ℚ) (l : List (String × ℚ)) :
    (insScoreDesc x l).Perm (x :: l) := by
  induction l with
  | nil => exact List.Perm.refl _
  | cons y ys ih =>
    simp only [insScoreDesc]
    split
    · exact (ih.cons y).trans (List.Perm.swap x y ys)
    · exact List.Perm.refl _

theorem sortScoreDesc_perm (l : List (String × ℚ)) : (sortScoreDesc l).Perm l := by
  induction l with
  | nil => exact List.Perm.refl _
  | cons x xs ih => exact (insScoreDesc_perm x (sortScoreDesc xs)).trans (ih.cons x)

theorem insScoreDesc_sorted (x : String × ℚ) (l : List (String × ℚ))
    (h : l.Pairwise fun a b => b.2 ≤ a.2) :
    (insScoreDesc x l).Pairwise fun a b => b.2 ≤ a.2 := by
  induction l with
  | nil => simp [insScoreDesc]
  | cons y ys ih =>
    rw [List.pairwise_cons] at h
    simp only [insScoreDesc]
    split
    · rename_i hgt
      rw [List.pairwise_cons]
      refine ⟨fun a ha => ?_, ih h.2⟩
      rcases List.mem_cons.mp ((insScoreDesc_perm x ys).mem_iff.mp ha) with h' | hmem
      · rw [h']; exact le_of_lt hgt
      · exact h.1 a hmem
    · rename_i hle
      rw [List.pairwise_cons]
      refine ⟨fun a ha => ?_, List.pairwise_cons.mpr h⟩
      rcases List.mem_cons.mp ha with h' | hmem
      · rw [h']; exact le_of_not_lt hle
      · exact (h.1 a hmem).trans (le_of_not_lt hle)

theorem sortScoreDesc_sorted (l : List (String × ℚ)) :
    (sortScoreDesc l).Pairwise fun a b => b.2 ≤ a.2 := by
  induction l with
  | nil => simp [sortScoreDesc]
  | cons x xs ih => exact insScoreDesc_sorted x (sortScoreDesc xs) ih

theorem insScoreDesc_filter (x : String × ℚ) (l : List (String × ℚ)) (v : ℚ) :
    (insScoreDesc x l).filter (fun p => decide (p.2 = v)) =
      if x.2 = v then x :: l.filter (fun p => decide (p.2 = v))
      else l.filter (fun p => decide (p.2 = v)) := by
  induction l with
  | nil => by_cases hx : x.2 = v <;> simp [insScoreDesc, hx]
  | cons y ys ih =>
    simp only [insScoreDesc]
    split
    · rename_i hgt
      rw [List.filter_cons, ih]
      by_cases hx : x.2 = v
      · have hy : ¬ (y.2 = v) := by
          intro hyv
          rw [hyv, hx] at hgt
          exact lt_irrefl v hgt
        simp [hx, hy, List.filter_cons]
      · by_cases hyb : y.2 = v <;> simp [hx, hyb, List.filter_cons]
    · by_cases hx : x.2 = v <;> simp [hx, List.filter_cons]

theorem sortScoreDesc_filter (l : List (String × ℚ)) (v : ℚ) :
    (sortScoreDesc l).filter (fun p => decide (p.2 = v)) =
      l.filter (fun p => decide (p.2 = v)) := by
  induction l with
  | nil => rfl
  | cons x xs ih =>
    rw [sortScoreDesc, insScoreDesc_filter]
    by_cases hx : x.2 = v <;> simp [hx, List.filter_cons, ih]

theorem dedupByNorm_sublist : ∀ (l : List (String × ℚ)) (seen : List String),
    List.Sublist (dedupByNorm l seen) l := by
  intro l
  induction l with
  | nil => intro seen; exact List.Sublist.refl _
  | cons p ps ih =>
    intro seen
    simp only [dedupByNorm]
    split
    · exact (ih seen).cons p
    · exact (ih _).cons₂ p

theorem dedupByNorm_key_notin : ∀ (l : List (String × ℚ)) (seen : List String)
    (p : String × ℚ), p ∈ dedupByNorm l seen →
    normalize_korean_phrase p.1 ∉ seen := by
  intro l
  induction l with
  | nil => intro seen p hp; simp [dedupByNorm] at hp
  | cons q qs ih =>
    intro seen p hp
    simp only [dedupByNorm] at hp
    split at hp
    · exact ih seen p hp
    · rcases List.mem_cons.mp hp with h' | hmem
      · rw [h']; assumption
      · intro hc
        exact ih _ p hmem (List.mem_cons_of_mem _ hc)

theorem dedupByNorm_keys_nodup : ∀ (l : List (String × ℚ)) (seen : List String),
    ((dedupByNorm l seen).map fun p => normalize_korean_phrase p.1).Nodup := by
  intro l
  induction l with
  | nil => intro seen; simp [dedupByNorm]
  | cons q qs ih =>
    intro seen
    simp only [dedupByNorm]
    split
    · exact ih seen
    · rw [List.map_cons, List.nodup_cons]
      refine ⟨fun hc => ?_, ih _⟩
      rcases List.mem_map.mp hc with ⟨p, hp, hkey⟩
      exact dedupByNorm_key_notin qs _ p hp (hkey ▸ List.mem_cons_self _ _)

theorem dedupByNorm_complete : ∀ (l : List (String × ℚ)) (seen : List String)
    (q : String × ℚ), q ∈ l → normalize_korean_phrase q.1 ∉ seen →
    ∃ p ∈ dedupByNorm l seen,
      normalize_korean_phrase p.1 = normalize_korean_phrase q.1 := by
  intro l
  induction l with
  | nil => intro seen q hq; cases hq
  | cons x xs ih =>
    intro seen q hq hs
    simp only [dedupByNorm]
    split
    · rename_i hkx
      rcases List.mem_cons.mp hq with h' | hmem
      · rw [h'] at hs; exact absurd hkx hs
      · exact ih seen q hmem hs
    · rename_i hkx
      rcases List.mem_cons.mp hq with h' | hmem
      · exact ⟨x, List.mem_cons_self _ _, by rw [h']⟩
      · by_cases heq : normalize_korean_phrase q.1 = normalize_korean_phrase x.1
        · exact ⟨x, List.mem_cons_self _ _, heq.symm⟩
        · have hs' : normalize_korean_phrase q.1 ∉
              normalize_korean_phrase x.1 :: seen := by
            intro hc
            rcases List.mem_cons.mp hc with hc | hc
            · exact heq hc
            · exact hs hc
          rcases ih _ q hmem hs' with ⟨p, hp, hkey⟩
          exact ⟨p, List.mem_cons_of_mem _ hp, hkey⟩

theorem dedupByNorm_max : ∀ (l : List (String × ℚ)) (seen : List String),
    (l.Pairwise fun a b => b.2 ≤ a.2) →
    ∀ p ∈ dedupByNorm l seen, ∀ q ∈ l,
    normalize_korean_phrase q.1 = normalize_korean_phrase p.1 → q.2 ≤ p.2 := by
  intro l
  induction l with
  | nil => intro seen _ p hp; simp [dedupByNorm] at hp
  | cons x xs ih =>
    intro seen hsort p hp q hq hkey
    rw [List.pairwise_cons] at hsort
    simp only [dedupByNorm] at hp
    split at hp
    · rename_i hkx
      rcases List.mem_cons.mp hq with h' | hmem
      · subst h'
        exact absurd (hkey ▸ hkx) (dedupByNorm_key_notin xs seen p hp)
      · exact ih seen hsort.2 p hp q hmem hkey
    · rcases List.mem_cons.mp hp with h' | hpd
      · subst h'
        rcases List.mem_cons.mp hq with h' | hmem
        · rw [h']
        · exact hsort.1 q hmem
      · rcases List.mem_cons.mp hq with h' | hmem
        · subst h'
          have hne : normalize_korean_phrase p.1 ≠ normalize_korean_phrase q.1 := by
            intro hc
            exact dedupByNorm_key_notin xs _ p hpd (hc ▸ List.mem_cons_self _ _)
          exact absurd hkey.symm hne
        · exact ih _ hsort.2 p hpd q hmem hkey

theorem dedupByNorm_split : ∀ (l : List (String × ℚ)) (seen : List String)
    (p : String × ℚ), p ∈ dedupByNorm l seen →
    ∃ l1 l2, l = l1 ++ p :: l2 ∧
      ∀ q ∈ l1, normalize_korean_phrase q.1 = normalize_korean_phrase p.1 →
        normalize_korean_phrase q.1 ∈ seen := by
  intro l
  induction l with
  | nil => intro seen p hp; simp [dedupByNorm] at hp
  | cons x xs ih =>
    intro seen p hp
    simp only [dedupByNorm] at hp
    split at hp
    · rename_i hkx
      rcases ih seen p hp with ⟨l1, l2, hsplit, hfree⟩
      refine ⟨x :: l1, l2, by rw [hsplit]; rfl, fun q hq hkey => ?_⟩
      rcases List.mem_cons.mp hq with h' | hmem
      · subst h'; exact hkey ▸ hkx
      · exact hfree q hmem hkey
    · rcases List.mem_cons.mp hp with h' | hpd
      · subst h'; exact ⟨[], xs, rfl, by simp⟩
      · rcases ih _ p hpd with ⟨l1, l2, hsplit, hfree⟩
        have hpkey : normalize_korean_phrase p.1 ≠ normalize_korean_phrase x.1 := by
          intro hc
          exact dedupByNorm_key_notin xs _ p hpd (hc ▸ List.mem_cons_self _ _)
        refine ⟨x :: l1, l2, by rw [hsplit]; rfl, fun q hq hkey => ?_⟩
        rcases List.mem_cons.mp hq with h' | hmem
        · subst h'; exact absurd hkey hpkey.symm
        · rcases List.mem_cons.mp (hfree q hmem hkey) with hc | hc
          · exact absurd (hkey.symm.trans hc) hpkey
          · exact hc

theorem filter_split_orig (P : String × ℚ → Bool) :
    ∀ (l A B : List (String × ℚ)) (p : String × ℚ), l.filter P = A ++ p :: B →
    ∃ r1 r2, l = r1 ++ p :: r2 ∧ r1.filter P = A := by
  intro l
  induction l with
  | nil =>
    intro A B p h
    exact absurd h.symm (List.append_ne_nil_of_right_ne_nil A (List.cons_ne_nil p B))
  | cons x xs ih =>
    intro A B p h
    rw [List.filter_cons] at h
    by_cases hx : P x
    · rw [if_pos hx] at h
      cases A with
      | nil =>
        rw [List.nil_append] at h
        have hxp : x = p := (List.cons_eq_cons.mp h).1
        exact ⟨[], xs, by rw [hxp]; rfl, by simp⟩
      | cons a A' =>
        rw [List.cons_append] at h
        have hxa : x = a := (List.cons_eq_cons.mp h).1
        rcases ih A' B p (List.cons_eq_cons.mp h).2 with ⟨r1, r2, hsplit, hfilt⟩
        refine ⟨x :: r1, r2, by rw [hsplit]; rfl, ?_⟩
        rw [List.filter_cons, if_pos hx, hfilt, hxa]
    · rw [if_neg hx] at h
      rcases ih A B p h with ⟨r1, r2, hsplit, hfilt⟩
      refine ⟨x :: r1, r2, by rw [hsplit]; rfl, ?_⟩
      rw [List.filter_cons, if_neg hx, hfilt]

/-- **C2.**  `rerank_with_ner_boost` assigns each phrase the score
`alpha * originalScore + beta * bonus` (bonus 1.0 for an entity term and a
relation term both occurring inside the normalized phrase, 0.6 for exactly
one of the two kinds, 0.0 otherwise); the returned list is sorted by new
score descending, holds at most one entry per normalized phrase, every input
phrase's class is represented, and the kept entry is the first
(highest-scored) occurrence: no other occurrence of its class scores higher,
and every strictly earlier rescored occurrence of its class scores strictly
lower. -/
theorem rerank_with_ner_boost_spec (keywords : List (String × ℚ))
    (entities relation_keywords : List String) (alpha beta : ℚ) :
    (rerank_with_ner_boost keywords entities alpha beta relation_keywords).Pairwise
        (fun a b => b.2 ≤ a.2) ∧
    ((rerank_with_ner_boost keywords entities alpha beta relation_keywords).map
        fun p => normalize_korean_phrase p.1).Nodup ∧
    (∀ p ∈ rerank_with_ner_boost keywords entities alpha beta relation_keywords,
      ∃ q ∈ keywords, p.1 = q.1 ∧
        p.2 = alpha * q.2 + beta * nerBonus (entities.map normalize_korean_phrase)
          (((if relation_keywords = [] then RELATION_KEYWORDS
             else relation_keywords)).map normalize_korean_phrase) q.1) ∧
    (∀ q ∈ keywords,
      ∃ p ∈ rerank_with_ner_boost keywords entities alpha beta relation_keywords,
        normalize_korean_phrase p.1 = normalize_korean_phrase q.1) ∧
    (∀ p ∈ rerank_with_ner_boost keywords entities alpha beta relation_keywords,
      ∀ q ∈ keywords,
        normalize_korean_phrase q.1 = normalize_korean_phrase p.1 →
        alpha * q.2 + beta * nerBonus (entities.map normalize_korean_phrase)
          (((if relation_keywords = [] then RELATION_KEYWORDS
             else relation_keywords)).map normalize_korean_phrase) q.1 ≤ p.2) ∧
    (∀ p ∈ rerank_with_ner_boost keywords entities alpha beta relation_keywords,
      ∃ i, (rescoreAll keywords (entities.map normalize_korean_phrase)
          (((if relation_keywords = [] then RELATION_KEYWORDS
             else relation_keywords)).map normalize_korean_phrase)
          alpha beta).get? i = some p ∧
        ∀ j, j < i → ∀ q, (rescoreAll keywords (entities.map normalize_korean_phrase)
          (((if relation_keywords = [] then RELATION_KEYWORDS
             else relation_keywords)).map normalize_korean_phrase)
          alpha beta).get? j = some q →
          normalize_korean_phrase q.1 = normalize_korean_phrase p.1 →
          q.2 < p.2) := by
  set rel_terms := ((if relation_keywords = [] then RELATION_KEYWORDS
      else relation_keywords)).map normalize_korean_phrase with hrel
  set ent_terms := entities.map normalize_korean_phrase with hent
  set rescored := rescoreAll keywords ent_terms rel_terms alpha beta with hresc
  set s := sortScoreDesc rescored with hsdef
  set dd := dedupByNorm s [] with hdd
  have hout : rerank_with_ner_boost keywords entities alpha beta relation_keywords
      = sortScoreDesc dd := rfl
  have hperm : (sortScoreDesc dd).Perm dd := sortScoreDesc_perm dd
  have hsperm : s.Perm rescored := sortScoreDesc_perm rescored
  have hssorted : s.Pairwise fun a b => b.2 ≤ a.2 := sortScoreDesc_sorted rescored
  have hmem_out : ∀ p, p ∈ sortScoreDesc dd → p ∈ s := fun p hp =>
    (dedupByNorm_sublist s []).subset (hperm.mem_iff.mp hp)
  refine ⟨?_, ?_, ?_, ?_, ?_, ?_⟩
  · rw [hout]; exact sortScoreDesc_sorted dd
  · rw [hout]
    exact (hperm.map fun p => normalize_korean_phrase p.1).nodup_iff.mpr
      (dedupByNorm_keys_nodup s [])
  · rw [hout]
    intro p hp
    have : p ∈ rescored := hsperm.mem_iff.mp (hmem_out p hp)
    rcases List.mem_map.mp this with ⟨q, hq, hpq⟩
    exact ⟨q, hq, by rw [← hpq], by rw [← hpq]⟩
  · rw [hout]
    intro q hq
    have hmem : (q.1, alpha * q.2 + beta * nerBonus ent_terms rel_terms q.1)
        ∈ rescored := List.mem_map_of_mem _ hq
    have hmem' := hsperm.mem_iff.mpr hmem
    rcases dedupByNorm_complete s [] _ hmem' (List.not_mem_nil _) with ⟨p, hp, hkey⟩
    exact ⟨p, hperm.mem_iff.mpr hp, hkey⟩
  · rw [hout]
    intro p hp q hq hkey
    have hmem : (q.1, alpha * q.2 + beta * nerBonus ent_terms rel_terms q.1)
        ∈ s := hsperm.mem_iff.mpr (List.mem_map_of_mem _ hq)
    exact dedupByNorm_max s [] hssorted p (hperm.mem_iff.mp hp) _ hmem hkey
  · rw [hout]
    intro p hp
    have hpd : p ∈ dd := hperm.mem_iff.mp hp
    rcases dedupByNorm_split s [] p hpd with ⟨s1, s2, hsplit, hfree⟩
    have hfree' : ∀ q ∈ s1,
        normalize_korean_phrase q.1 ≠ normalize_korean_phrase p.1 := by
      intro q hq hkey
      exact absurd (hfree q hq hkey) (List.not_mem_nil _)
    have hfilt : rescored.filter (fun x => decide (x.2 = p.2)) =
        s1.filter (fun x => decide (x.2 = p.2)) ++ p ::
          s2.filter (fun x => decide (x.2 = p.2)) := by
      rw [← sortScoreDesc_filter rescored p.2, ← hsdef, hsplit,
        List.filter_append, List.filter_cons]
      simp
    rcases filter_split_orig _ rescored _ _ p hfilt with ⟨r1, r2, hrsplit, hrfilt⟩
    refine ⟨r1.length, ?_, ?_⟩
    · rw [hrsplit, List.get?_append_right (le_refl _), Nat.sub_self]
      rfl
    · intro j hj q hget hkey
      have hq1 : q ∈ r1 := by
        rw [hrsplit, List.get?_append hj] at hget
        exact List.get?_mem hget
      have hqresc : q ∈ rescored := by
        rw [hrsplit]
        exact List.mem_append_left _ hq1
      have hle : q.2 ≤ p.2 :=
        dedupByNorm_max s [] hssorted p hpd q (hsperm.mem_iff.mpr hqresc) hkey
      rcases lt_or_eq_of_le hle with hlt | heq
      · exact hlt
      · exfalso
        have hqf : q ∈ r1.filter (fun x => decide (x.2 = p.2)) :=
          List.mem_filter.mpr ⟨hq1, by rw [heq]; simp⟩
        rw [hrfilt] at hqf
        exact hfree' q (List.mem_filter.mp hqf).1 hkey

/-- **C6.**  The claimed idempotence of `normalize_korean_phrase` fails on the
code as written: the mis-escaped character class removes the letter `s` (and
not whitespace), so `normalize("Seoul") = "seoul"` while normalizing again
gives `"eoul"`.  The docstring ("removing separators/whitespace and
lowering") describes the intended, idempotent behaviour. -/
theorem normalize_korean_phrase_not_idempotent :
    normalize_korean_phrase "Seoul" = "seoul" ∧
    normalize_korean_phrase (normalize_korean_phrase "Seoul") = "eoul" ∧
    normalize_korean_phrase (normalize_korean_phrase "Seoul") ≠
      normalize_korean_phrase "Seoul" :=
  ⟨rfl, rfl, by decide⟩

/-! ## Entity index build (src/app/keywords.py lines 86-109 and
src/quote_backend/core/keywords.py lines 108-131, identical bodies)

The `entities_by_type` construction inside `extract_keywords_with_ner`.
Python iterates `for seen in list(seen_normalized)` over a snapshot of a
`set` and discards from the live set; the snapshot makes the loop itself
well defined, and discards only ever hit the element currently visited, so
the scan is a single pass over the snapshot.  The `set` is modelled as an
insertion-ordered list; the scan's outcome (duplicate flag, surviving and
discarded elements) is independent of the iteration order whenever the set
is an antichain under proper substring containment, which the invariant
proved below maintains, so the model computes the same index as any hash
order. -/

/-- One merged entity as produced by `merge_ner_entities`. -/
structure Entity where
  label : String
  word : String
deriving Repr, DecidableEq

/-- `entities_by_type`: an insertion-ordered mapping from label to the kept
surface forms. -/
abbrev EntityIndex := List (String × List String)

/-- Result of the inner `for seen in list(seen_normalized)` loop: the
surviving elements, the `is_duplicate` flag, and the discarded elements
(whose words get pruned). -/
structure ScanR where
  kept : List String
  dup : Bool
  disc : List String
deriving Repr, DecidableEq

/-- The inner loop for one new normalized form `n`. -/
def scanSeen (n : String) : List String → ScanR
  | [] => ⟨[], false, []⟩
  | s :: rest =>
    if n ≠ s ∧ pyIn n s then ⟨s :: rest, true, []⟩
    else if s ≠ n ∧ pyIn s n then
      let r := scanSeen n rest
      ⟨r.kept, r.dup, s :: r.disc⟩
    else
      let r := scanSeen n rest
      ⟨s :: r.kept, r.dup, r.disc⟩

/-- Drop from every label's list the words whose normalized form was
discarded (`entities_by_type[lbl] = [w for w in ... if normalize(w) != seen]`,
run for each discarded `seen`). -/
def pruneIdx (idx : EntityIndex) (discarded : List String) : EntityIndex :=
  idx.map fun p => (p.1, p.2.filter fun w => normalize_korean_phrase w ∉ discarded)

/-- `entities_by_type.setdefault(label, [])` followed by
`if word not in entities_by_type[label]: append`. -/
def addWord (idx : EntityIndex) (label word : String) : EntityIndex :=
  if (idx.lookup label).isSome then
    idx.map fun p =>
      if p.1 = label then (p.1, if word ∈ p.2 then p.2 else p.2 ++ [word]) else p
  else idx ++ [(label, [word])]

/-- One iteration of the entity loop. -/
def indexStep (st : EntityIndex × List String) (ent : Entity) :
    EntityIndex × List String :=
  let n := normalize_korean_phrase ent.word
  let scanned := scanSeen n st.2
  let idx2 := pruneIdx st.1 scanned.disc
  if scanned.dup then (idx2, scanned.kept)
  else
    (addWord idx2 ent.label ent.word,
     if n ∈ scanned.kept then scanned.kept else scanned.kept ++ [n])

/-- The full `entities_by_type` build over the merged entity list. -/
def buildEntityIndex (entities : List Entity) : EntityIndex :=
  (entities.foldl indexStep ([], [])).1

/-! ### The containment invariant of the entity index -/

theorem scanSeen_kept_subset (n : String) :
    ∀ seen, ∀ x ∈ (scanSeen n seen).kept, x ∈ seen := by
  intro seen
  induction seen with
  | nil => intro x hx; simp [scanSeen] at hx
  | cons s rest ih =>
    intro x hx
    simp only [scanSeen] at hx
    split at hx
    · exact hx
    · split at hx
      · exact List.mem_cons_of_mem _ (ih x hx)
      · rcases List.mem_cons.mp hx with h' | hmem
        · rw [h']; exact List.mem_cons_self _ _
        · exact List.mem_cons_of_mem _ (ih x hmem)

theorem scanSeen_cover (n : String) :
    ∀ seen, ∀ x ∈ seen, x ∈ (scanSeen n seen).kept ∨ x ∈ (scanSeen n seen).disc := by
  intro seen
  induction seen with
  | nil => intro x hx; cases hx
  | cons s rest ih =>
    intro x hx
    simp only [scanSeen]
    split
    · exact Or.inl hx
    · split
      · rcases List.mem_cons.mp hx with h' | hmem
        · exact Or.inr (by rw [h']; exact List.mem_cons_self _ _)
        · rcases ih x hmem with h | h
          · exact Or.inl h
          · exact Or.inr (List.mem_cons_of_mem _ h)
      · rcases List.mem_cons.mp hx with h' | hmem
        · exact Or.inl (by rw [h']; exact List.mem_cons_self _ _)
        · rcases ih x hmem with h | h
          · exact Or.inl (List.mem_cons_of_mem _ h)
          · exact Or.inr h

theorem scanSeen_no_dup_clean (n : String) :
    ∀ seen, (scanSeen n seen).dup = false →
    ∀ s ∈ (scanSeen n seen).kept,
      ¬(n ≠ s ∧ pyIn n s) ∧ ¬(s ≠ n ∧ pyIn s n) := by
  intro seen
  induction seen with
  | nil => intro _ s hs; simp [scanSeen] at hs
  | cons t rest ih =>
    intro hdup s hs
    by_cases hc1 : n ≠ t ∧ pyIn n t
    · simp only [scanSeen, if_pos hc1] at hdup
      cases hdup
    · by_cases hc2 : t ≠ n ∧ pyIn t n
      · simp only [scanSeen, if_neg hc1, if_pos hc2] at hdup hs
        exact ih hdup s hs
      · simp only [scanSeen, if_neg hc1, if_neg hc2] at hdup hs
        rcases List.mem_cons.mp hs with h' | hmem
        · subst h'; exact ⟨hc1, hc2⟩
        · exact ih hdup s hmem

/-- The loop invariant: every kept word's normalized form is registered in
`seen_normalized`, and `seen_normalized` is an antichain under proper
substring containment. -/
def IdxInv (st : EntityIndex × List String) : Prop :=
  (∀ p ∈ st.1, ∀ w ∈ p.2, normalize_korean_phrase w ∈ st.2) ∧
  (∀ a ∈ st.2, ∀ b ∈ st.2, ¬(a ≠ b ∧ a.data <:+: b.data))

theorem addWord_mem (idx : EntityIndex) (label word : String) :
    ∀ p ∈ addWord idx label word, ∀ w ∈ p.2,
      (∃ q ∈ idx, w ∈ q.2) ∨ w = word := by
  intro p hp w hw
  simp only [addWord] at hp
  split at hp
  · rcases List.mem_map.mp hp with ⟨q, hq, hqp⟩
    by_cases hql : q.1 = label
    · rw [if_pos hql] at hqp
      subst hqp
      by_cases hwq : word ∈ q.2
      · rw [if_pos hwq] at hw
        exact Or.inl ⟨q, hq, hw⟩
      · rw [if_neg hwq] at hw
        rcases List.mem_append.mp hw with h | h
        · exact Or.inl ⟨q, hq, h⟩
        · exact Or.inr (List.mem_singleton.mp h)
    · rw [if_neg hql] at hqp
      subst hqp
      exact Or.inl ⟨q, hq, hw⟩
  · rcases List.mem_append.mp hp with h | h
    · exact Or.inl ⟨p, h, hw⟩
    · rw [List.mem_singleton.mp h] at hw
      exact Or.inr (List.mem_singleton.mp hw)

theorem pruneIdx_mem (idx : EntityIndex) (disc : List String) :
    ∀ p ∈ pruneIdx idx disc, ∀ w ∈ p.2,
      (∃ q ∈ idx, w ∈ q.2) ∧ normalize_korean_phrase w ∉ disc := by
  intro p hp w hw
  rcases List.mem_map.mp hp with ⟨q, hq, hqp⟩
  subst hqp
  have := List.mem_filter.mp hw
  exact ⟨⟨q, hq, this.1⟩, by simpa using this.2⟩

theorem indexStep_inv (st : EntityIndex × List String) (ent : Entity)
    (hinv : IdxInv st) : IdxInv (indexStep st ent) := by
  obtain ⟨hwords, hanti⟩ := hinv
  simp only [indexStep]
  split
  · rename_i hdup
    constructor
    · intro p hp w hw
      rcases pruneIdx_mem st.1 _ p hp w hw with ⟨⟨q, hq, hwq⟩, hnd⟩
      rcases scanSeen_cover (normalize_korean_phrase ent.word) st.2
          (normalize_korean_phrase w) (hwords q hq w hwq) with h | h
      · exact h
      · exact absurd h hnd
    · intro a ha b hb
      exact hanti a (scanSeen_kept_subset _ st.2 a ha)
        b (scanSeen_kept_subset _ st.2 b hb)
  · rename_i hdup
    have hdup' : (scanSeen (normalize_korean_phrase ent.word) st.2).dup = false :=
      Bool.not_eq_true _ ▸ (by simpa using hdup)
    have hclean := scanSeen_no_dup_clean (normalize_korean_phrase ent.word)
      st.2 hdup'
    have hseen' : ∀ x, x ∈ (if normalize_korean_phrase ent.word ∈
          (scanSeen (normalize_korean_phrase ent.word) st.2).kept
        then (scanSeen (normalize_korean_phrase ent.word) st.2).kept
        else (scanSeen (normalize_korean_phrase ent.word) st.2).kept ++
          [normalize_korean_phrase ent.word]) ↔
        x ∈ (scanSeen (normalize_korean_phrase ent.word) st.2).kept ∨
          x = normalize_korean_phrase ent.word := by
      intro x
      split
      · rename_i hmem
        constructor
        · exact fun h => Or.inl h
        · rintro (h | h)
          · exact h
          · rw [h]; exact hmem
      · constructor
        · intro h
          rcases List.mem_append.mp h with h | h
          · exact Or.inl h
          · exact Or.inr (List.mem_singleton.mp h)
        · rintro (h | h)
          · exact List.mem_append_left _ h
          · rw [h]; exact List.mem_append_right _ (List.mem_singleton_self _)
    constructor
    · intro p hp w hw
      rcases addWord_mem _ ent.label ent.word p hp w hw with ⟨q, hq, hwq⟩ | hww
      · rcases pruneIdx_mem st.1 _ q hq w hwq with ⟨⟨r, hr, hwr⟩, hnd⟩
        rcases scanSeen_cover (normalize_korean_phrase ent.word) st.2
            (normalize_korean_phrase w) (hwords r hr w hwr) with h | h
        · exact (hseen' _).mpr (Or.inl h)
        · exact absurd h hnd
      · exact (hseen' _).mpr (Or.inr (by rw [hww]))
    · intro a ha b hb
      rcases (hseen' a).mp ha with ha' | ha' <;>
        rcases (hseen' b).mp hb with hb' | hb'
      · exact hanti a (scanSeen_kept_subset _ st.2 a ha')
          b (scanSeen_kept_subset _ st.2 b hb')
      · subst hb'
        intro hc
        exact (hclean a ha').2 ⟨hc.1, by simpa [pyIn] using hc.2⟩
      · subst ha'
        intro hc
        exact (hclean b hb').1 ⟨hc.1, by simpa [pyIn] using hc.2⟩
      · subst ha'; subst hb'
        intro hc
        exact hc.1 rfl

theorem buildEntityIndex_inv (entities : List Entity) :
    IdxInv (entities.foldl indexStep ([], [])) := by
  have h : ∀ (l : List Entity) (st : EntityIndex × List String),
      IdxInv st → IdxInv (l.foldl indexStep st) := by
    intro l
    induction l with
    | nil => intro st h; exact h
    | cons e es ih => intro st h; exact ih _ (indexStep_inv st e h)
  exact h entities ([], []) ⟨by intro p hp; simp at hp, by intro a ha; simp at ha⟩

/-- **C7 (amended).**  In the entity index built by
`extract_keywords_with_ner`, no label's list holds two surface forms whose
normalized forms are *properly* contained in one another (distinct
normalized forms, one a substring of the other); two distinct surface forms
with *equal* normalized forms can both survive. -/
theorem buildEntityIndex_no_proper_containment (entities : List Entity)
    (label : String) (ws : List String)
    (hmem : (label, ws) ∈ buildEntityIndex entities)
    (w1 : String) (h1 : w1 ∈ ws) (w2 : String) (h2 : w2 ∈ ws) :
    ¬(normalize_korean_phrase w1 ≠ normalize_korean_phrase w2 ∧
      (normalize_korean_phrase w1).data <:+: (normalize_korean_phrase w2).data) := by
  obtain ⟨hwords, hanti⟩ := buildEntityIndex_inv entities
  exact hanti _ (hwords (label, ws) hmem w1 h1) _ (hwords (label, ws) hmem w2 h2)

/-- **C7 counterexample.**  As stated, the claim fails: in the list built
from two PERSON entities `"Trump"` and `"TRUMP"`, both surface forms
survive although their normalized forms are (equal, hence) substrings of
one another. -/
theorem buildEntityIndex_equal_norms_both_survive :
    buildEntityIndex [⟨"PER", "Trump"⟩, ⟨"PER", "TRUMP"⟩] =
      [("PER", ["Trump", "TRUMP"])] ∧
    normalize_korean_phrase "Trump" = normalize_korean_phrase "TRUMP" ∧
    (normalize_korean_phrase "Trump").data <:+:
      (normalize_korean_phrase "TRUMP").data := by
  refine ⟨by decide, by decide, ?_⟩
  decide

/-- **C7 witness.**  The amended theorem applied to a concrete run: the
longer of two properly-nested PERSON forms survives alone, and no list of
the index holds properly nested normalized forms. -/
theorem buildEntityIndex_no_proper_containment_witness :
    buildEntityIndex [⟨"PER", "도널드"⟩, ⟨"PER", "도널드 트럼프"⟩, ⟨"LOC", "서울"⟩] =
      [("PER", ["도널드 트럼프"]), ("LOC", ["서울"])] ∧
    ¬(normalize_korean_phrase "도널드 트럼프" ≠ normalize_korean_phrase "도널드 트럼프" ∧
      (normalize_korean_phrase "도널드 트럼프").data <:+:
        (normalize_korean_phrase "도널드 트럼프").data) :=
  ⟨by decide, buildEntityIndex_no_proper_containment
    [⟨"PER", "도널드"⟩, ⟨"PER", "도널드 트럼프"⟩, ⟨"LOC", "서울"⟩] "PER" ["도널드 트럼프"]
    (by decide) "도널드 트럼프" (by decide) "도널드 트럼프" (by decide)⟩

/-! ## Entity merger (src/app/entities.py lines 12-85, `merge_ner_entities`)

Input tokens are the HuggingFace pipeline dicts, read through the keys
`entity`, `word`, `start`, `end`. -/

/-- One raw NER token (`results` element).  `stop` models the `end` key. -/
structure RawTok where
  entity : String
  word : String
  start : Nat
  stop : Nat
deriving Repr, DecidableEq

/-- `config.NER_LABELS` (src/app/config.py). -/
def NER_LABELS : List String := ["PER", "ORG", "LOC", "DAT", "AFW"]

/-- `raw.split("-")` of the tag strings. -/
def splitDash (raw : String) : List String :=
  (splitOnP (fun c => c = '-') raw.data).map String.mk

/-- The tag dispatch of lines 20-43: returns `(tag_type, entity_type)`. -/
def parseTag (raw : String) : String × String :=
  match splitDash raw with
  | [p] => ("B", p)
  | [l, r] =>
    if (l = "B" ∨ l = "I") ∧ r ∈ NER_LABELS then (l, r)
    else if (r = "B" ∨ r = "I") ∧ l ∈ NER_LABELS then (r, l)
    else (r, l)
  | p :: _ => ("B", p)
  | [] => ("B", "")

/-- `(buffer[-1]["entity"] or "").split("-")[0]`, also used for a flushed
group's label. -/
def firstDashSeg (raw : String) : String := (splitDash raw).headD ""

/-- One iteration of the merging loop over `(merged_groups, buffer)`. -/
def mergeStep (st : List (List RawTok) × List RawTok) (ent : RawTok) :
    List (List RawTok) × List RawTok :=
  let tag_type := (parseTag ent.entity).1
  let entity_type := (parseTag ent.entity).2
  if entity_type ∉ NER_LABELS then st
  else if tag_type = "B" then
    (if st.2.isEmpty then st.1 else st.1 ++ [st.2], [ent])
  else if tag_type = "I" ∧ ¬st.2.isEmpty then
    match st.2.getLast? with
    | some prev =>
      if entity_type = firstDashSeg prev.entity ∧ ent.start ≤ prev.stop + 1 then
        (st.1, st.2 ++ [ent])
      else (st.1 ++ [st.2], [ent])
    | none => st
  else
    ((if st.2.isEmpty then st.1 else st.1 ++ [st.2]), [])

/-- `str.replace("##", "")`: left-to-right non-overlapping removal. -/
def stripHH : List Char → List Char
  | '#' :: '#' :: rest => stripHH rest
  | c :: rest => c :: stripHH rest
  | [] => []

/-- The punctuation set of line 76 (each member is a one-character string,
so the test can only look at one-character words). -/
def punctChars : List Char :=
  ['"', '\'', '(', ')', '[', ']', Char.ofNat 0x7B, Char.ofNat 0x7D,
   ',', '.', '!', '?']

/-- A flushed group's surface form: concatenated `##`-stripped words,
stripped of surrounding whitespace. -/
def groupWord (g : List RawTok) : String :=
  pyStrip (String.join (g.map fun e => String.mk (stripHH e.word.data)))

/-- The discard filters of lines 74-79. -/
def keepWord (w : String) : Bool :=
  ¬(w.length < 2) &&
  !(match w.data with
    | [c] => punctChars.contains c
    | _ => false) &&
  !((w.data.filter fun c => c ≠ ' ' ∧ c ≠ '-' ∧ c ≠ '·') = [])

/-- `merge_ner_entities`: run the loop, flush the final buffer, then build
and filter the surface forms. -/
def merge_ner_entities (results : List RawTok) : List Entity :=
  let folded := results.foldl mergeStep ([], [])
  let merged_groups := if folded.2.isEmpty then folded.1 else folded.1 ++ [folded.2]
  (merged_groups.filterMap fun g =>
    match g.head? with
    | none => none
    | some h =>
      let w := groupWord g
      if keepWord w then some ⟨firstDashSeg h.entity, w⟩ else none)

/-- **C5 (amended).**  For an `I`-marked token whose entity type is in the
label set: with a non-empty buffer it extends the buffer exactly when its
type equals the *first dash segment of the last buffered token's raw tag*
(the entity type for suffix-style tags like `"PER-I"`, but the boundary
marker for prefix-style tags like `"B-PER"`) and its start offset is at most
one past the buffer's end offset, and otherwise starts a new buffer; with an
empty buffer the token is dropped, not started as a new buffer. -/
theorem mergeStep_I_characterization (gs : List (List RawTok))
    (buf : List RawTok) (ent : RawTok) (ty : String)
    (hparse : parseTag ent.entity = ("I", ty)) (hty : ty ∈ NER_LABELS) :
    (buf = [] → mergeStep (gs, buf) ent = (gs, [])) ∧
    (∀ prev bs, buf = bs ++ [prev] →
      mergeStep (gs, buf) ent =
        if ty = firstDashSeg prev.entity ∧ ent.start ≤ prev.stop + 1
        then (gs, buf ++ [ent])
        else (gs ++ [buf], [ent])) := by
  have hIB : ("I" : String) ≠ "B" := by decide
  constructor
  · intro hbuf
    subst hbuf
    simp [mergeStep, hparse, hty, hIB]
  · intro prev bs hbuf
    subst hbuf
    have hne : ¬(bs ++ [prev]).isEmpty := by
      simp [List.isEmpty_iff]
    have hlast : (bs ++ [prev]).getLast? = some prev := List.getLast?_concat bs
    by_cases hcond : ty = firstDashSeg prev.entity ∧ ent.start ≤ prev.stop + 1
    · rw [if_pos hcond]
      simp [mergeStep, hparse, hty, hne, hlast, hcond, hIB]
      exact hcond.1 ▸ hty
    · rw [if_neg hcond]
      simp [mergeStep, hparse, hty, hne, hlast, hcond, hIB]

/-- **C5 witness.**  The amended characterization at concrete inputs: a
suffix-style `"PER-I"` token with matching first segment and adjacent
offset extends the buffer; with a gap of 2 it starts a new buffer; and an
`I` token meeting an empty buffer is dropped. -/
theorem mergeStep_I_characterization_witness :
    mergeStep ([], [⟨"PER-B", "도널", 0, 2⟩]) ⟨"PER-I", "드", 3, 4⟩ =
      ([], [⟨"PER-B", "도널", 0, 2⟩, ⟨"PER-I", "드", 3, 4⟩]) ∧
    mergeStep ([], [⟨"PER-B", "도널", 0, 2⟩]) ⟨"PER-I", "드", 5, 6⟩ =
      ([[⟨"PER-B", "도널", 0, 2⟩]], [⟨"PER-I", "드", 5, 6⟩]) ∧
    mergeStep ([], []) ⟨"PER-I", "드", 3, 4⟩ = ([], []) := by
  refine ⟨?_, ?_, ?_⟩
  · rw [(mergeStep_I_characterization [] [⟨"PER-B", "도널", 0, 2⟩]
      ⟨"PER-I", "드", 3, 4⟩ "PER" (by decide) (by decide)).2
      ⟨"PER-B", "도널", 0, 2⟩ [] rfl]
    decide
  · rw [(mergeStep_I_characterization [] [⟨"PER-B", "도널", 0, 2⟩]
      ⟨"PER-I", "드", 5, 6⟩ "PER" (by decide) (by decide)).2
      ⟨"PER-B", "도널", 0, 2⟩ [] rfl]
    decide
  · exact (mergeStep_I_characterization [] [] ⟨"PER-I", "드", 3, 4⟩ "PER"
      (by decide) (by decide)).1 rfl

/-- **C5 counterexample.**  The claim as stated fails on prefix-style BIO
tags: an `"I-PER"` token whose type matches the buffered `"B-PER"` token's
type, with an adjacent offset, does NOT extend the buffer (the code compares
against the first dash segment `"B"`), so the two tokens surface as two
entities; and a lone `"I-PER"` token with no open buffer is discarded
entirely instead of starting a new buffer. -/
theorem merge_ner_entities_claim_false :
    merge_ner_entities [⟨"B-PER", "도널드", 0, 3⟩, ⟨"I-PER", "트럼프", 3, 6⟩] =
      [⟨"B", "도널드"⟩, ⟨"I", "트럼프"⟩] ∧
    (parseTag "I-PER").2 = (parseTag "B-PER").2 ∧
    merge_ner_entities [⟨"I-PER", "트럼프", 0, 3⟩] = [] := by
  refine ⟨by decide, by decide, by decide⟩

/-! ## Name resolver (src/app/name_resolution.py)

`get_wikidata_english_name` wraps two HTTP requests; they are modelled as
oracles: `wsearch` returns the list of matching entity ids (an exception is
`Except.error`, a missing or empty `search` key is `[]`) and `wdetail`
returns the labels of an entity.  The lexicon is the imported
`PERSON_NAME_LEXICON` dict, modelled as an insertion-ordered association
list. -/

/-- The labels of a Wikidata entity (`en` and `ko` keys of `labels`). -/
structure WikiLabels where
  en : Option String
  ko : Option String
deriving Repr, DecidableEq

/-- The dict returned by `get_wikidata_english_name`. -/
inductive WikiResult where
  | err (msg : String)
  | found (ko : String) (en : Option String) (qid : String)
deriving Repr, DecidableEq

/-- `get_wikidata_english_name`: search, then fetch labels of the first hit. -/
def get_wikidata_english_name (wsearch : Except Unit (List String))
    (wdetail : String → Except Unit WikiLabels) (korean_name : String) :
    WikiResult :=
  match wsearch with
  | .error _ => .err "Failed to fetch search results"
  | .ok [] => .err "No matching Wikidata entry"
  | .ok (qid :: _) =>
    match wdetail qid with
    | .error _ => .err "Failed to fetch entity details"
    | .ok labels =>
      match labels.en with
      | some v => .found korean_name (some v) qid
      | none =>
        match labels.ko with
        | some _ => .found korean_name none qid
        | none => .err "No labels found"

/-- The truthy `info.get("en")` view of a `WikiResult`. -/
def wikiEnView : WikiResult → Option String
  | .found _ (some v) _ => if v = "" then none else some v
  | _ => none

/-- `resolve_person_name_en`: exact lexicon hit, then substring lexicon hit,
then Wikidata, then translation, then the (stripped) input itself. -/
def resolve_person_name_en (lexicon : List (String × String))
    (wsearch : String → Except Unit (List String))
    (wdetail : String → Except Unit WikiLabels)
    (translate : String → Except Unit String) (name_ko : String) : String :=
  let name := pyStrip name_ko
  match lexicon.lookup name with
  | some v => v
  | none =>
    match lexicon.find? fun kv => pyIn kv.1 name with
    | some kv => kv.2
    | none =>
      match wikiEnView (get_wikidata_english_name (wsearch name) wdetail name) with
      | some v => v
      | none =>
        match translate name with
        | .ok t => t
        | .error _ => name

/-- **C9 (amended).**  When the (stripped) name has no lexicon match — exact
or substring — and the Wikidata search and the translation capability both
fail, `resolve_person_name_en` returns the input stripped of surrounding
whitespace (the function is total over failing oracles, so no exception
escapes). -/
theorem resolve_person_name_en_fallback (lexicon : List (String × String))
    (wsearch : String → Except Unit (List String))
    (wdetail : String → Except Unit WikiLabels)
    (translate : String → Except Unit String) (name_ko : String)
    (hexact : (lexicon.lookup (pyStrip name_ko)) = none)
    (hsub : (lexicon.find? fun kv => pyIn kv.1 (pyStrip name_ko)) = none)
    (hwiki : wsearch (pyStrip name_ko) = Except.error () ∨
      wsearch (pyStrip name_ko) = Except.ok [])
    (htr : translate (pyStrip name_ko) = Except.error ()) :
    resolve_person_name_en lexicon wsearch wdetail translate name_ko =
      pyStrip name_ko := by
  simp only [resolve_person_name_en, hexact, hsub]
  rcases hwiki with hw | hw <;>
    simp [hw, get_wikidata_english_name, wikiEnView, htr]

/-- **C9 witness.**  The amended fallback at a concrete input. -/
theorem resolve_person_name_en_fallback_witness :
    resolve_person_name_en [("트럼프", "Donald Trump")]
      (fun _ => Except.error ()) (fun _ => Except.error ())
      (fun _ => Except.error ()) "김철수 " = "김철수" := by
  have h := resolve_person_name_en_fallback [("트럼프", "Donald Trump")]
    (fun _ => Except.error ()) (fun _ => Except.error ())
    (fun _ => Except.error ()) "김철수 " (by decide) (by decide)
    (Or.inl rfl) rfl
  rw [h]
  decide

/-- **C9 counterexample.**  The claim's "returns the original Korean string
unchanged" fails when the input carries surrounding whitespace: with no
lexicon match and all external capabilities failing, the resolver returns
the *stripped* string, not the original. -/
theorem resolve_person_name_en_strips :
    resolve_person_name_en [("트럼프", "Donald Trump")]
      (fun _ => Except.error ()) (fun _ => Except.error ())
      (fun _ => Except.error ()) "김철수 " = "김철수" ∧
    ("김철수" : String) ≠ "김철수 " := by
  exact ⟨rfl, by decide⟩

/-! ## Search orchestrator
(src/quote_backend/services/search_service.py lines 40-118,
`SearchService.search`)

`get_search_results` (the Rollcall backend) may raise any exception, all of
which are caught; `collect_candidates_google_cse` may raise an
`AssertionError` (caught, yielding `[]`) or anything else (escaping), so its
outcome is a three-way sum.  The returned `Except` is `.error` exactly when
an exception escapes `search`. -/

/-- One returned search item (`{"link": ..., "snippet": ...}`). -/
structure SearchItem where
  link : String
  snippet : String
deriving Repr, DecidableEq

/-- One Google-CSE candidate; a missing/`None` url or snippet is `""`
(both are falsy exactly like the model's empty string). -/
structure CseCand where
  url : String
  snippet : String
deriving Repr, DecidableEq

/-- Outcome of `collect_candidates_google_cse`. -/
inductive CseOutcome where
  | ok (cands : List CseCand)
  | assertErr
  | otherErr
deriving Repr, DecidableEq

/-- The `try/except AssertionError` CSE block shared by both branches. -/
def cseBlock (outcome : CseOutcome) : Except Unit (List SearchItem) :=
  match outcome with
  | .ok cands =>
    .ok ((cands.filter fun c => c.url ≠ "").map fun c => ⟨c.url, c.snippet⟩)
  | .assertErr => .ok []
  | .otherErr => .error ()

/-- `SearchService.search`. -/
def searchService (get_search_results : String → Nat → Except Unit (List String))
    (collect_candidates : String → Nat → CseOutcome)
    (query : String) (is_trump_context rollcall : Bool) (num_results : Nat) :
    Except Unit (List SearchItem) :=
  let query_lower := String.mk (query.data.map pyLower)
  let has_trump_hint := pyIn "trump" query_lower || pyIn "트럼프" query
  if (is_trump_context && rollcall) || has_trump_hint then
    let rollcall_links :=
      match get_search_results query num_results with
      | .ok ls => ls
      | .error _ => []
    let items := (rollcall_links.filter (· ≠ "")).map
      fun url => ({ link := url, snippet := "" } : SearchItem)
    if items.isEmpty then cseBlock (collect_candidates query (max 1 (num_results / 2)))
    else .ok items
  else cseBlock (collect_candidates query (max 1 (num_results / 2)))

/-- **C8.**  If the Rollcall backend raises or yields no (non-empty) links
while the whitelisted Google-CSE backend succeeds, `search` returns exactly
the CSE candidates (those carrying a url, as link/snippet items) and no
exception escapes — in the Trump-hinted branch and in the plain branch
alike. -/
theorem searchService_fallback
    (get_search_results : String → Nat → Except Unit (List String))
    (collect_candidates : String → Nat → CseOutcome)
    (query : String) (is_trump_context rollcall : Bool) (num_results : Nat)
    (cands : List CseCand)
    (hroll : (match get_search_results query num_results with
      | .ok ls => ls.filter (· ≠ "")
      | .error _ => []) = [])
    (hcse : collect_candidates query (max 1 (num_results / 2)) =
      CseOutcome.ok cands) :
    searchService get_search_results collect_candidates query is_trump_context
        rollcall num_results =
      Except.ok ((cands.filter fun c => c.url ≠ "").map
        fun c => ({ link := c.url, snippet := c.snippet } : SearchItem)) := by
  unfold searchService
  rcases h : get_search_results query num_results with e | ls
  · simp only [h] at hroll ⊢
    split <;> simp [hcse, cseBlock]
  · simp only [h] at hroll ⊢
    have hroll' : ls.filter (fun x => !decide (x = "")) = [] := by
      simpa using hroll
    split <;> simp [hroll', hcse, cseBlock]

/-- **C8 witness.**  The fallback at concrete oracles: a raising Rollcall
backend and a succeeding CSE backend. -/
theorem searchService_fallback_witness :
    searchService (fun _ _ => Except.error ())
      (fun _ _ => CseOutcome.ok [⟨"https://cnn.com/a", "snip"⟩, ⟨"", "lost"⟩])
      "트럼프 베네수엘라" true true 5 =
      Except.ok [⟨"https://cnn.com/a", "snip"⟩] := by
  rw [searchService_fallback (fun _ _ => Except.error ())
    (fun _ _ => CseOutcome.ok [⟨"https://cnn.com/a", "snip"⟩, ⟨"", "lost"⟩])
    "트럼프 베네수엘라" true true 5 [⟨"https://cnn.com/a", "snip"⟩, ⟨"", "lost"⟩]
    rfl rfl]
  rfl

/-! ## Query builder (src/app/query_builder.py and src/qdd2/query_builder.py,
`generate_search_query` and helpers)

The two files share every line except the rollcall block (app lines 187-285,
qdd2 lines 187-288): the app block picks a second PERSON *and* an extra
LOC/ORG/keyword token, the qdd2 block picks a single focus token via
`_select_rollcall_focus_entity` with LOC/keyword fallbacks.  `resolve` is
`resolve_person_name_en` passed as a total oracle (it never raises) and
`translate` is `translate_ko_to_en` as a failing oracle. -/

/-- The `{ko, en}` result dict. -/
structure QueryOut where
  ko : Option String
  en : Option String
deriving Repr, DecidableEq

/-- `entities_by_type` as an insertion-ordered dict. -/
abbrev TypeIndex := List (String × List String)

/-- `entities_by_type.get(key, [])`. -/
def lookupD (idx : TypeIndex) (key : String) : List String :=
  (idx.lookup key).getD []

/-- `_normalize_token`: `re.sub(r"[^\w\s]", " ", tok).lower()`, then collapse
whitespace. -/
def normalizeToken (tok : String) : String :=
  let replaced := tok.data.map fun c =>
    if isPyWord c || c.isWhitespace then c else ' '
  pyStrip (joinSp (pySplit (String.mk (replaced.map pyLower))))

/-- `_dedupe_preserve` with its running `seen` set. -/
def dedupePreserveAux : List String → List String → List String
  | [], _ => []
  | x :: xs, seen =>
    if x = "" then dedupePreserveAux xs seen
    else
      if normalizeToken x = "" ∨ normalizeToken x ∈ seen then
        dedupePreserveAux xs seen
      else x :: dedupePreserveAux xs (normalizeToken x :: seen)

/-- `_dedupe_preserve`. -/
def dedupePreserve (seq : List String) : List String := dedupePreserveAux seq []

/-- The speaker's English form: `resolve_person_name_en` when `use_wikidata`,
else a caught translation with the Korean fallback. -/
def speakerEnOf (resolve : String → String) (translate : String → Except Unit String)
    (use_wikidata : Bool) (speaker_ko : String) : String :=
  if use_wikidata then resolve speaker_ko
  else
    match translate speaker_ko with
    | .ok t => t
    | .error _ => speaker_ko

/-- One location's English token: translate, take the part before the first
comma, keep its first two words; skip if that is empty; on a translation
failure fall back to the original. -/
def locEnToken (translate : String → Except Unit String) (loc : String) :
    Option String :=
  match translate loc with
  | .ok full =>
    let first := ((splitOnP (fun c => c = ',') full.data).map String.mk).headD ""
    strOpt (joinSp ((pySplit first).take 2))
  | .error _ => some loc

/-- One keyword's English token: translate and keep the first three words;
skip if empty; fall back to the original on failure. -/
def kwEnToken (translate : String → Except Unit String) (kw : String) :
    Option String :=
  match translate kw with
  | .ok full => strOpt (joinSp ((pySplit full).take 3))
  | .error _ => some kw

/-- `quote_en_full` collapsed to a string (`""` = `None`/falsy). -/
def quoteEnOf (translate : String → Except Unit String) (q : Option String) :
    String :=
  match q with
  | none => ""
  | some qs =>
    if qs = "" then ""
    else
      match translate qs with
      | .ok t => t
      | .error _ => ""

/-- Append the truthy parts, join, strip, `or None`. -/
def assembleParts (parts : List String) : Option String :=
  strOpt (pyStrip (joinSp (parts.filter (· ≠ ""))))

/-- The shared default-mode assembly (both files, final block). -/
def defaultQueries (speaker_ko speaker_en : String) (loc_list locs_en : List String)
    (top_kws kws_en : List String) (quote_sentence : Option String)
    (quote_en : String) : QueryOut :=
  let en_tokens := dedupePreserve ([speaker_en] ++ locs_en ++ kws_en)
  let en_tokens := if quote_en ≠ "" then en_tokens ++ [quote_en] else en_tokens
  let query_en := pyStrip (joinSp en_tokens)
  let locs_ko := joinSp loc_list
  let parts_ko := [speaker_ko]
    ++ (if locs_ko ≠ "" then [locs_ko] else [])
    ++ (if top_kws ≠ [] then [joinSp top_kws] else [])
    ++ (match quote_sentence with
        | some qs => if qs ≠ "" then [qs] else []
        | none => [])
  let query_ko := pyStrip (joinSp (dedupePreserve (pySplit (joinSp parts_ko))))
  ⟨strOpt query_ko, strOpt query_en⟩

/-! ### Date formatting (`strftime("%B %d %Y")` after `strptime("%Y-%m-%d")`)

On the deployment platform (CPython on glibc) `%B` is the English month
name, `%d` is the zero-padded two-digit day and `%Y` prints the year without
padding. -/

def monthNames : List String :=
  ["January", "February", "March", "April", "May", "June", "July",
   "August", "September", "October", "November", "December"]

def leapYear (y : Nat) : Bool := y % 4 = 0 && (y % 100 ≠ 0 || y % 400 = 0)

def daysInMonth (y m : Nat) : Nat :=
  if m = 2 then (if leapYear y then 29 else 28)
  else if m = 4 ∨ m = 6 ∨ m = 9 ∨ m = 11 then 30
  else 31

def digitsVal (l : List Char) : Nat :=
  l.foldl (fun a c => a * 10 + (c.toNat - 48)) 0

/-- The year as `%Y` prints it: decimal digits with no leading zeros. -/
def dropLeadZeros (l : List Char) : List Char :=
  match l.dropWhile (· = '0') with
  | [] => ['0']
  | r => r

/-- The day as `%d` prints it: two digits. -/
def pad2Chars (d : Nat) : List Char :=
  [Char.ofNat (48 + d / 10), Char.ofNat (48 + d % 10)]

/-- The strict `\d{4}-\d{2}-\d{2}` shape (the app file's `re.fullmatch`). -/
def ymdChars (s : String) : Option (List Char × List Char × List Char) :=
  match s.data with
  | [y1, y2, y3, y4, h1, m1, m2, h2, d1, d2] =>
    if h1 = '-' ∧ h2 = '-' ∧ [y1, y2, y3, y4, m1, m2, d1, d2].all (·.isDigit)
    then some ([y1, y2, y3, y4], [m1, m2], [d1, d2])
    else none
  | _ => none

/-- `datetime.strptime(s, "%Y-%m-%d")` succeeds on the strict shape iff the
calendar values are valid (`datetime` years start at 1). -/
def validYMD (s : String) : Bool :=
  match ymdChars s with
  | some (ys, ms, ds) =>
    let y := digitsVal ys
    let m := digitsVal ms
    let d := digitsVal ds
    1 ≤ y && 1 ≤ m && m ≤ 12 && 1 ≤ d && d ≤ daysInMonth y m
  | none => false

/-- `dt.strftime("%B %d %Y")` of a strict-shape date. -/
def formatBdY (s : String) : String :=
  match ymdChars s with
  | some (ys, ms, ds) =>
    (monthNames.getD (digitsVal ms - 1) "") ++ " " ++ String.mk ds ++ " " ++
      String.mk (dropLeadZeros ys)
  | none => s

/-- The app file's date conversion (lines 190-199): regex-gated strptime
with the raw (stripped) string as the fallback. -/
def dateEnApp (dstr : String) : String :=
  if validYMD dstr then formatBdY dstr else dstr

/-- `strptime("%Y-%m-%d")` in the qdd2 file (lines 193-197) without the
regex gate: `%Y` demands exactly four digits, `%m`/`%d` accept one or two
digits in range; the raw string is the fallback on failure. -/
def flexYMD (s : String) : Option (List Char × Nat × Nat) :=
  match splitOnP (fun c => c = '-') s.data with
  | [ys, ms, ds] =>
    if ys.length = 4 ∧ (1 ≤ ms.length ∧ ms.length ≤ 2) ∧
        (1 ≤ ds.length ∧ ds.length ≤ 2) ∧
        (ys ++ ms ++ ds).all (·.isDigit) then
      let y := digitsVal ys
      let m := digitsVal ms
      let d := digitsVal ds
      if 1 ≤ y ∧ 1 ≤ m ∧ m ≤ 12 ∧ 1 ≤ d ∧ d ≤ daysInMonth y m then
        some (ys, m, d)
      else none
    else none
  | _ => none

/-- The qdd2 file's date conversion. -/
def dateEnQdd (s : String) : String :=
  match flexYMD s with
  | some (ys, m, d) =>
    (monthNames.getD (m - 1) "") ++ " " ++ String.mk (pad2Chars d) ++ " " ++
      String.mk (dropLeadZeros ys)
  | none => s

/-! ### The app file's rollcall block (lines 187-285) -/

/-- Lines 204-218: the first PERSON other than the speaker, with its
translated (three-word) English form. -/
def appTargetPer (translate : String → Except Unit String)
    (per_list : List String) (speaker_ko : String) : String × String :=
  match per_list.find? fun per => !(speaker_ko ≠ "" && per = speaker_ko) with
  | none => ("", "")
  | some per =>
    (per,
     match translate per with
     | .ok t => joinSp ((pySplit t).take 3)
     | .error _ => per)

/-- Lines 223-255: the extra keyword — the first LOC entity, else the first
ORG entity, else the first keyword not containing the speaker. -/
def appExtraKw (translate : String → Except Unit String) (ebt : TypeIndex)
    (keywords : List (String × ℚ)) (speaker_ko : String) : String × String :=
  let loc_list := lookupD ebt "LOC"
  let org_list := lookupD ebt "ORG"
  let chosen_list := if loc_list ≠ [] then loc_list else org_list
  match chosen_list with
  | c :: _ =>
    (c,
     match translate c with
     | .ok t => joinSp ((pySplit t).take 3)
     | .error _ => c)
  | [] =>
    match keywords.find? fun kw =>
        kw.1 ≠ "" && !(speaker_ko ≠ "" && pyIn speaker_ko kw.1) &&
        !(kw.1.length < 2) with
    | some kw =>
      (pyStrip kw.1,
       match translate (pyStrip kw.1) with
       | .ok t => joinSp ((pySplit t).take 3)
       | .error _ => pyStrip kw.1)
    | none => ("", "")

/-- `generate_search_query` of src/app/query_builder.py. -/
def gsqApp (resolve : String → String) (translate : String → Except Unit String)
    (entities_by_type : TypeIndex) (keywords : List (String × ℚ))
    (top_k : Nat) (quote_sentence : Option String)
    (article_date : Option String) (rollcall_mode use_wikidata : Bool) :
    QueryOut :=
  match lookupD entities_by_type "PER" with
  | [] => ⟨none, none⟩
  | speaker_ko :: pers =>
    let speaker_en := speakerEnOf resolve translate use_wikidata speaker_ko
    let loc_list := dedupePreserve ((lookupD entities_by_type "LOC").take 2)
    let locs_en := loc_list.filterMap (locEnToken translate)
    let top_kws := dedupePreserve ((keywords.take top_k).map Prod.fst)
    let kws_en := top_kws.filterMap (kwEnToken translate)
    let quote_en := quoteEnOf translate quote_sentence
    if rollcall_mode ∧ article_date.isSome then
      let dstr := pyStrip (article_date.getD "")
      let date_en := dateEnApp dstr
      let tp := appTargetPer translate (speaker_ko :: pers) speaker_ko
      let ek := appExtraKw translate entities_by_type keywords speaker_ko
      ⟨assembleParts [speaker_ko, dstr, tp.1, ek.1],
       assembleParts [speaker_en, date_en, tp.2, ek.2]⟩
    else
      defaultQueries speaker_ko speaker_en loc_list locs_en top_kws kws_en
        quote_sentence quote_en

/-! ### The qdd2 file's rollcall block (lines 187-288) -/

/-- One raw NER entity dict fed to `_select_rollcall_focus_entity`
(`labelRaw` is `ent.get("label") or ent.get("tag") or ent.get("ner") or ""`,
`translated` is the optional `translated` key). -/
structure NEnt where
  text : String
  labelRaw : String
  translated : Option String
deriving Repr, DecidableEq

/-- `raw.replace("B-", "")` / `.replace("I-", "")`: left-to-right
non-overlapping removal of a two-character pattern. -/
def removePat2 (a b : Char) : List Char → List Char
  | x :: y :: rest =>
    if x = a ∧ y = b then removePat2 a b rest
    else x :: removePat2 a b (y :: rest)
  | l => l

/-- `raw_label.replace("B-", "").replace("I-", "")`. -/
def stripBI (s : String) : String :=
  String.mk (removePat2 'I' '-' (removePat2 'B' '-' s.data))

/-- `LABEL_PRIORITY.get(label, 0)`. -/
def labelPrio (label : String) : Nat :=
  if label = "LC" then 3 else if label = "OG" then 2
  else if label = "PS" then 1 else 0

/-- One `stats` entry. -/
structure FocusStat where
  label : String
  count : Nat
  len : Nat
  translated : String
deriving Repr, DecidableEq

/-- Insert or update one `stats` entry (first insert fixes label and
translated form; updates bump the count and the max length). -/
def updStats (stats : List (String × FocusStat)) (key label translated : String) :
    List (String × FocusStat) :=
  if (stats.lookup key).isSome then
    stats.map fun p =>
      if p.1 = key then
        (p.1, { p.2 with count := p.2.count + 1, len := max p.2.len key.length })
      else p
  else stats ++ [(key, ⟨label, 1, key.length, translated⟩)]

/-- The `stats` dict of `_select_rollcall_focus_entity`. -/
def selStats (entities : List NEnt) (speaker_ko : String) :
    List (String × FocusStat) :=
  entities.foldl
    (fun stats ent =>
      let tv := pyStrip ent.text
      if tv = "" then stats
      else
        let label := stripBI ent.labelRaw
        if ¬(label = "LC" ∨ label = "OG" ∨ label = "PS") then stats
        else if label = "PS" ∧ speaker_ko ≠ "" ∧
            (pyIn tv speaker_ko || pyIn speaker_ko tv) then stats
        else updStats stats tv label (ent.translated.getD tv))
    []

/-- Strict lexicographic comparison of the `(base, count, len)` score. -/
def scoreGt (a b : Nat × Nat × Nat) : Bool :=
  a.1 > b.1 || (a.1 = b.1 && (a.2.1 > b.2.1 ||
    (a.2.1 = b.2.1 && a.2.2 > b.2.2)))

/-- The score of one entry. -/
def statScore (p : String × FocusStat) : Nat × Nat × Nat :=
  (labelPrio p.2.label, p.2.count, p.2.len)

/-- `sorted(stats.items(), key=..., reverse=True)[0]`: the stable descending
sort keeps insertion order among equal scores, so the head is the earliest
entry with the maximal score. -/
def selBest (stats : List (String × FocusStat)) : Option (String × FocusStat) :=
  stats.foldl
    (fun best p =>
      match best with
      | none => some p
      | some b => if scoreGt (statScore p) (statScore b) then some p else some b)
    none

/-- `_select_rollcall_focus_entity`. -/
def selectRollcallFocus (entities : List NEnt) (speaker_ko : String) :
    String × String :=
  match selBest (selStats entities speaker_ko) with
  | none => ("", "")
  | some p => (p.1, p.2.translated)

/-- The particle alternation of the qdd2 fallback regex, in source order. -/
def particles : List String :=
  ["에서", "에게", "부터", "까지", "으로써", "으로서", "으로", "만큼", "뿐",
   "조차", "마저", "마다", "처럼", "같이", "보다", "께서", "라고", "하고",
   "와", "과", "랑", "이랑", "은", "는", "이", "가", "을", "를", "의"]

/-- `re.sub(r"(에서|…|의)$", "", tok)`: the pattern must end at the end of
the string, so the single leftmost match removes the longest listed suffix. -/
def stripParticle (tok : String) : String :=
  let best := particles.foldl
    (fun acc p =>
      if p.data.isSuffixOf tok.data && decide (p.length > acc.length) then p
      else acc)
    ""
  if best = "" then tok
  else String.mk (tok.data.take (tok.data.length - best.data.length))

/-- The inner token scan of the qdd2 fallback (lines 233-257): the first
all-Hangul token of length ≥ 2, free of digits and of the speaker, whose
particle-stripped base keeps length ≥ 2. -/
def qddTokChoose (speaker_ko : String) : List String → String
  | [] => ""
  | raw :: rest =>
    let tok := pyStrip raw
    if speaker_ko ≠ "" ∧ pyIn speaker_ko tok then qddTokChoose speaker_ko rest
    else if tok.length < 2 then qddTokChoose speaker_ko rest
    else if tok.data.any (·.isDigit) then qddTokChoose speaker_ko rest
    else if ¬(tok.data.all fun c => isHangulSyl c) then qddTokChoose speaker_ko rest
    else if (stripParticle tok).length < 2 then qddTokChoose speaker_ko rest
    else stripParticle tok

/-- The outer keyword scan of the qdd2 fallback (lines 223-266). -/
def qddKwFallback (translate : String → Except Unit String) (speaker_ko : String) :
    List (String × ℚ) → String × String
  | [] => ("", "")
  | (kw, _) :: rest =>
    if kw = "" then qddKwFallback translate speaker_ko rest
    else if speaker_ko ≠ "" ∧ pyIn speaker_ko kw then
      qddKwFallback translate speaker_ko rest
    else if qddTokChoose speaker_ko (pySplit kw) = "" then
      qddKwFallback translate speaker_ko rest
    else
      (qddTokChoose speaker_ko (pySplit kw),
       match translate (qddTokChoose speaker_ko (pySplit kw)) with
       | .ok t => joinSp ((pySplit t).take 3)
       | .error _ => qddTokChoose speaker_ko (pySplit kw))

/-- `generate_search_query` of src/qdd2/query_builder.py. -/
def gsqQdd (resolve : String → String) (translate : String → Except Unit String)
    (entities_by_type : TypeIndex) (keywords : List (String × ℚ))
    (top_k : Nat) (quote_sentence : Option String)
    (article_date : Option String) (rollcall_mode use_wikidata : Bool)
    (entities : List NEnt) : QueryOut :=
  match lookupD entities_by_type "PER" with
  | [] => ⟨none, none⟩
  | speaker_ko :: _ =>
    let speaker_en := speakerEnOf resolve translate use_wikidata speaker_ko
    let loc_list := dedupePreserve ((lookupD entities_by_type "LOC").take 2)
    let locs_en := loc_list.filterMap (locEnToken translate)
    let top_kws := dedupePreserve ((keywords.take top_k).map Prod.fst)
    let kws_en := top_kws.filterMap (kwEnToken translate)
    let quote_en := quoteEnOf translate quote_sentence
    if rollcall_mode ∧ article_date.getD "" ≠ "" then
      let dstr := article_date.getD ""
      let date_en := dateEnQdd dstr
      let focus := selectRollcallFocus entities speaker_ko
      let target :=
        if focus.1 ≠ "" then focus
        else if loc_list ≠ [] then
          (loc_list.headD "",
           if locs_en ≠ [] then locs_en.headD "" else loc_list.headD "")
        else qddKwFallback translate speaker_ko keywords
      ⟨assembleParts [speaker_ko, dstr, target.1],
       assembleParts [speaker_en, date_en, target.2]⟩
    else
      defaultQueries speaker_ko speaker_en loc_list locs_en top_kws kws_en
        quote_sentence quote_en

/-- **C1.**  With no PERSON entity (no `"PER"` key, or an empty list under
it), both query builders return `{ko: None, en: None}` for every keyword
list, quote sentence, article date and mode flag combination — in focused
and default mode alike. -/
theorem generate_search_query_no_person (resolve : String → String)
    (translate : String → Except Unit String) (entities_by_type : TypeIndex)
    (keywords : List (String × ℚ)) (top_k : Nat) (quote_sentence : Option String)
    (article_date : Option String) (rollcall_mode use_wikidata : Bool)
    (entities : List NEnt) (hper : lookupD entities_by_type "PER" = []) :
    gsqApp resolve translate entities_by_type keywords top_k quote_sentence
        article_date rollcall_mode use_wikidata = ⟨none, none⟩ ∧
    gsqQdd resolve translate entities_by_type keywords top_k quote_sentence
        article_date rollcall_mode use_wikidata entities = ⟨none, none⟩ := by
  constructor
  · rw [gsqApp, hper]
  · rw [gsqQdd, hper]

/-- **C1 witness.**  The fail-closed output at a concrete PERSON-free input,
in focused mode and in default mode. -/
theorem generate_search_query_no_person_witness :
    gsqApp (fun s => s) (fun _ => Except.error ())
        [("LOC", ["서울"]), ("PER", [])] [("전면폐쇄", 9/10)] 3 (some "인용문")
        (some "2024-11-29") true true = ⟨none, none⟩ ∧
    gsqQdd (fun s => s) (fun _ => Except.error ())
        [("LOC", ["서울"]), ("PER", [])] [("전면폐쇄", 9/10)] 3 (some "인용문")
        none false false [⟨"서울", "B-LC", none⟩] = ⟨none, none⟩ :=
  generate_search_query_no_person (fun s => s) (fun _ => Except.error ())
    [("LOC", ["서울"]), ("PER", [])] [("전면폐쇄", 9/10)] 3 (some "인용문")
    (some "2024-11-29") true true [⟨"서울", "B-LC", none⟩] rfl |>.imp
    (fun h => h) (fun _ => generate_search_query_no_person (fun s => s)
      (fun _ => Except.error ()) [("LOC", ["서울"]), ("PER", [])]
      [("전면폐쇄", 9/10)] 3 (some "인용문") none false false
      [⟨"서울", "B-LC", none⟩] rfl |>.2)

/-- **C10 (amended).**  With the focused-mode flag set but no article date,
both query builders return exactly what default mode returns on the same
input: the rollcall branch is skipped and the call falls through.  (The
result can still be `{ko: None, en: None}` when the assembled text is
empty — see the counterexample — so "does not return nulls" holds only when
some token survives normalization.) -/
theorem gsq_rollcall_no_date_falls_through (resolve : String → String)
    (translate : String → Except Unit String) (entities_by_type : TypeIndex)
    (keywords : List (String × ℚ)) (top_k : Nat) (quote_sentence : Option String)
    (use_wikidata : Bool) (entities : List NEnt) :
    gsqApp resolve translate entities_by_type keywords top_k quote_sentence
        none true use_wikidata =
      gsqApp resolve translate entities_by_type keywords top_k quote_sentence
        none false use_wikidata ∧
    gsqQdd resolve translate entities_by_type keywords top_k quote_sentence
        none true use_wikidata entities =
      gsqQdd resolve translate entities_by_type keywords top_k quote_sentence
        none false use_wikidata entities := by
  constructor
  · rw [gsqApp, gsqApp]
    rcases lookupD entities_by_type "PER" with _ | ⟨s, ps⟩ <;> simp
  · rw [gsqQdd, gsqQdd]
    rcases lookupD entities_by_type "PER" with _ | ⟨s, ps⟩ <;> simp

/-- **C10 counterexample.**  "Does not return nulls" fails: with a PERSON
entity whose only surface form is punctuation (`"!!"`), no other tokens and
failing translation, the fall-through default mode assembles empty text and
returns `{ko: None, en: None}` although the focused-mode flag was set and a
PERSON entity exists. -/
theorem gsq_rollcall_no_date_null_output :
    gsqApp (fun s => s) (fun _ => Except.error ()) [("PER", ["!!"])] [] 3
        none none true true = ⟨none, none⟩ ∧
    lookupD [("PER", ["!!"])] "PER" = ["!!"] := by
  constructor
  · rfl
  · rfl

/-! ### Provenance of the rollcall focus tokens -/

theorem appTargetPer_cases (translate : String → Except Unit String)
    (per_list : List String) (speaker_ko : String) :
    (appTargetPer translate per_list speaker_ko).1 = "" ∨
    (appTargetPer translate per_list speaker_ko).1 ∈ per_list := by
  unfold appTargetPer
  rcases hfind : per_list.find? fun per => !(speaker_ko ≠ "" && per = speaker_ko)
    with _ | per
  · exact Or.inl rfl
  · exact Or.inr (List.mem_of_find?_eq_some hfind)

theorem appExtraKw_cases (translate : String → Except Unit String)
    (ebt : TypeIndex) (keywords : List (String × ℚ)) (speaker_ko : String) :
    (appExtraKw translate ebt keywords speaker_ko).1 = "" ∨
    (appExtraKw translate ebt keywords speaker_ko).1 ∈ lookupD ebt "LOC" ∨
    (appExtraKw translate ebt keywords speaker_ko).1 ∈ lookupD ebt "ORG" ∨
    ∃ kw ∈ keywords, (appExtraKw translate ebt keywords speaker_ko).1 =
      pyStrip kw.1 := by
  simp only [appExtraKw]
  rcases hch : (if lookupD ebt "LOC" ≠ [] then lookupD ebt "LOC"
      else lookupD ebt "ORG") with _ | ⟨c, cs⟩
  · simp only [hch]
    rcases hfind : keywords.find? fun kw =>
        kw.1 ≠ "" && !(speaker_ko ≠ "" && pyIn speaker_ko kw.1) &&
        !(kw.1.length < 2) with _ | kw
    · simp only [hfind]
      exact Or.inl trivial
    · simp only [hfind]
      exact Or.inr (Or.inr (Or.inr
        ⟨kw, List.mem_of_find?_eq_some hfind, rfl⟩))
  · simp only [hch]
    by_cases hloc : lookupD ebt "LOC" ≠ []
    · rw [if_pos hloc] at hch
      exact Or.inr (Or.inl (by rw [hch]; exact List.mem_cons_self _ _))
    · rw [if_neg hloc] at hch
      exact Or.inr (Or.inr (Or.inl (by rw [hch]; exact List.mem_cons_self _ _)))

theorem selBest_mem : ∀ (stats : List (String × FocusStat))
    (b : Option (String × FocusStat)) (p : String × FocusStat),
    stats.foldl
      (fun best q =>
        match best with
        | none => some q
        | some b' => if scoreGt (statScore q) (statScore b') then some q
          else some b')
      b = some p → p ∈ stats ∨ b = some p := by
  intro stats
  induction stats with
  | nil => intro b p h; exact Or.inr h
  | cons x xs ih =>
    intro b p h
    rcases ih _ p h with hmem | hstep
    · exact Or.inl (List.mem_cons_of_mem _ hmem)
    · rcases b with _ | bb
      · have hx : some x = some p := hstep
        exact Or.inl (Option.some_inj.mp hx ▸ List.mem_cons_self _ _)
      · have hx : (if scoreGt (statScore x) (statScore bb) then some x
            else some bb) = some p := hstep
        by_cases hgt : scoreGt (statScore x) (statScore bb)
        · rw [if_pos hgt] at hx
          exact Or.inl (Option.some_inj.mp hx ▸ List.mem_cons_self _ _)
        · rw [if_neg hgt] at hx
          exact Or.inr hx

theorem updStats_keys (stats : List (String × FocusStat))
    (key label translated : String) (p : String × FocusStat)
    (hp : p ∈ updStats stats key label translated) :
    p.1 = key ∨ ∃ q ∈ stats, p.1 = q.1 := by
  unfold updStats at hp
  split at hp
  · rcases List.mem_map.mp hp with ⟨q, hq, hqp⟩
    by_cases hqk : q.1 = key
    · rw [if_pos hqk] at hqp
      exact Or.inr ⟨q, hq, by rw [← hqp]⟩
    · rw [if_neg hqk] at hqp
      exact Or.inr ⟨q, hq, by rw [← hqp]⟩
  · rcases List.mem_append.mp hp with h | h
    · exact Or.inr ⟨p, h, rfl⟩
    · rw [List.mem_singleton.mp h]
      exact Or.inl rfl

theorem selStats_keys (entities : List NEnt) (speaker_ko : String)
    (p : String × FocusStat) (hp : p ∈ selStats entities speaker_ko) :
    ∃ e ∈ entities, p.1 = pyStrip e.text := by
  have haux : ∀ (l : List NEnt) (stats : List (String × FocusStat)),
      ∀ p ∈ l.foldl
        (fun stats ent =>
          let tv := pyStrip ent.text
          if tv = "" then stats
          else
            let label := stripBI ent.labelRaw
            if ¬(label = "LC" ∨ label = "OG" ∨ label = "PS") then stats
            else if label = "PS" ∧ speaker_ko ≠ "" ∧
                (pyIn tv speaker_ko || pyIn speaker_ko tv) then stats
            else updStats stats tv label (ent.translated.getD tv))
        stats,
      (∃ q ∈ stats, p.1 = q.1) ∨ ∃ e ∈ l, p.1 = pyStrip e.text := by
    intro l
    induction l with
    | nil => intro stats p hp; exact Or.inl ⟨p, hp, rfl⟩
    | cons e es ih =>
      intro stats p hp
      rcases ih _ p hp with hacc | hrest
      · rcases hacc with ⟨q, hq, hpq⟩
        simp only at hq
        split at hq
        · exact Or.inl ⟨q, hq, hpq⟩
        · split at hq
          · exact Or.inl ⟨q, hq, hpq⟩
          · split at hq
            · exact Or.inl ⟨q, hq, hpq⟩
            · rcases updStats_keys _ _ _ _ q hq with hk | ⟨r, hr, hqr⟩
              · exact Or.inr ⟨e, List.mem_cons_self _ _, by rw [hpq, hk]⟩
              · exact Or.inl ⟨r, hr, by rw [hpq, hqr]⟩
      · rcases hrest with ⟨e', he', hpe⟩
        exact Or.inr ⟨e', List.mem_cons_of_mem _ he', hpe⟩
  rcases haux entities [] p hp with ⟨q, hq, _⟩ | h
  · cases hq
  · exact h

theorem selectRollcallFocus_cases (entities : List NEnt) (speaker_ko : String) :
    (selectRollcallFocus entities speaker_ko).1 = "" ∨
    ∃ e ∈ entities,
      (selectRollcallFocus entities speaker_ko).1 = pyStrip e.text := by
  unfold selectRollcallFocus
  rcases hsel : selBest (selStats entities speaker_ko) with _ | p
  · exact Or.inl rfl
  · rcases selBest_mem _ none p hsel with hmem | hnone
    · exact Or.inr (by
        rcases selStats_keys entities speaker_ko p hmem with ⟨e, he, hpe⟩
        exact ⟨e, he, hpe⟩)
    · cases hnone

theorem dedupePreserveAux_subset : ∀ (l seen : List String) (x : String),
    x ∈ dedupePreserveAux l seen → x ∈ l := by
  intro l
  induction l with
  | nil => intro seen x hx; cases hx
  | cons y ys ih =>
    intro seen x hx
    simp only [dedupePreserveAux] at hx
    split at hx
    · exact List.mem_cons_of_mem _ (ih seen x hx)
    · split at hx
      · exact List.mem_cons_of_mem _ (ih seen x hx)
      · rcases List.mem_cons.mp hx with h' | hmem
        · rw [h']; exact List.mem_cons_self _ _
        · exact List.mem_cons_of_mem _ (ih _ x hmem)

theorem qddTokChoose_cases (speaker_ko : String) : ∀ toks : List String,
    qddTokChoose speaker_ko toks = "" ∨
    ∃ raw ∈ toks, qddTokChoose speaker_ko toks = stripParticle (pyStrip raw) := by
  intro toks
  induction toks with
  | nil => exact Or.inl rfl
  | cons raw rest ih =>
    simp only [qddTokChoose]
    split
    · rcases ih with h | ⟨r, hr, hres⟩
      · exact Or.inl h
      · exact Or.inr ⟨r, List.mem_cons_of_mem _ hr, hres⟩
    · split
      · rcases ih with h | ⟨r, hr, hres⟩
        · exact Or.inl h
        · exact Or.inr ⟨r, List.mem_cons_of_mem _ hr, hres⟩
      · split
        · rcases ih with h | ⟨r, hr, hres⟩
          · exact Or.inl h
          · exact Or.inr ⟨r, List.mem_cons_of_mem _ hr, hres⟩
        · split
          · rcases ih with h | ⟨r, hr, hres⟩
            · exact Or.inl h
            · exact Or.inr ⟨r, List.mem_cons_of_mem _ hr, hres⟩
          · split
            · rcases ih with h | ⟨r, hr, hres⟩
              · exact Or.inl h
              · exact Or.inr ⟨r, List.mem_cons_of_mem _ hr, hres⟩
            · exact Or.inr ⟨raw, List.mem_cons_self _ _, rfl⟩

theorem qddKwFallback_cases (translate : String → Except Unit String)
    (speaker_ko : String) : ∀ kws : List (String × ℚ),
    (qddKwFallback translate speaker_ko kws).1 = "" ∨
    ∃ kw ∈ kws, ∃ raw ∈ pySplit kw.1,
      (qddKwFallback translate speaker_ko kws).1 =
        stripParticle (pyStrip raw) := by
  intro kws
  induction kws with
  | nil => exact Or.inl rfl
  | cons kw rest ih =>
    rcases kw with ⟨kwt, kwscore⟩
    simp only [qddKwFallback]
    split
    · rcases ih with h | ⟨k, hk, r, hr, hres⟩
      · exact Or.inl h
      · exact Or.inr ⟨k, List.mem_cons_of_mem _ hk, r, hr, hres⟩
    · split
      · rcases ih with h | ⟨k, hk, r, hr, hres⟩
        · exact Or.inl h
        · exact Or.inr ⟨k, List.mem_cons_of_mem _ hk, r, hr, hres⟩
      · split
        · rcases ih with h | ⟨k, hk, r, hr, hres⟩
          · exact Or.inl h
          · exact Or.inr ⟨k, List.mem_cons_of_mem _ hk, r, hr, hres⟩
        · rename_i hbase
          rcases qddTokChoose_cases speaker_ko (pySplit kwt)
            with hempty | ⟨raw, hraw, hres⟩
          · exact absurd hempty hbase
          · exact Or.inr ⟨(kwt, kwscore), List.mem_cons_self _ _, raw, hraw,
              by rw [← hres]⟩

/-- **C3 (amended).**  In focused (rollcall) mode with a PERSON entity and a
non-empty article date, each version's queries are assembled from named
parts only — never from keyword lists or quote text.  The app version emits
speaker + date + at most one non-speaker PERSON token + at most one extra
token (a LOC entity, else an ORG entity, else one stripped keyword); the
qdd2 version emits speaker + date + at most one focus token (a trimmed NER
entity text, else a LOC entity, else one particle-stripped keyword word). -/
theorem gsq_rollcall_structure (resolve : String → String)
    (translate : String → Except Unit String) (ebt : TypeIndex)
    (keywords : List (String × ℚ)) (top_k : Nat) (quote_sentence : Option String)
    (d : String) (use_wikidata : Bool) (entities : List NEnt)
    (speaker_ko : String) (pers : List String)
    (hper : lookupD ebt "PER" = speaker_ko :: pers) (hd : d ≠ "") :
    (∃ tp ek : String × String,
      gsqApp resolve translate ebt keywords top_k quote_sentence (some d) true
          use_wikidata =
        ⟨assembleParts [speaker_ko, pyStrip d, tp.1, ek.1],
         assembleParts [speakerEnOf resolve translate use_wikidata speaker_ko,
           dateEnApp (pyStrip d), tp.2, ek.2]⟩ ∧
      (tp.1 = "" ∨ tp.1 ∈ speaker_ko :: pers) ∧
      (ek.1 = "" ∨ ek.1 ∈ lookupD ebt "LOC" ∨ ek.1 ∈ lookupD ebt "ORG" ∨
        ∃ kw ∈ keywords, ek.1 = pyStrip kw.1)) ∧
    (∃ f : String × String,
      gsqQdd resolve translate ebt keywords top_k quote_sentence (some d) true
          use_wikidata entities =
        ⟨assembleParts [speaker_ko, d, f.1],
         assembleParts [speakerEnOf resolve translate use_wikidata speaker_ko,
           dateEnQdd d, f.2]⟩ ∧
      (f.1 = "" ∨ (∃ e ∈ entities, f.1 = pyStrip e.text) ∨
        f.1 ∈ lookupD ebt "LOC" ∨
        ∃ kw ∈ keywords, ∃ raw ∈ pySplit kw.1,
          f.1 = stripParticle (pyStrip raw))) := by
  constructor
  · refine ⟨appTargetPer translate (speaker_ko :: pers) speaker_ko,
      appExtraKw translate ebt keywords speaker_ko, ?_,
      appTargetPer_cases translate (speaker_ko :: pers) speaker_ko,
      appExtraKw_cases translate ebt keywords speaker_ko⟩
    rw [gsqApp, hper]
    simp
  · refine ⟨if (selectRollcallFocus entities speaker_ko).1 ≠ "" then
        selectRollcallFocus entities speaker_ko
      else if dedupePreserve ((lookupD ebt "LOC").take 2) ≠ [] then
        ((dedupePreserve ((lookupD ebt "LOC").take 2)).headD "",
         if (dedupePreserve ((lookupD ebt "LOC").take 2)).filterMap
             (locEnToken translate) ≠ [] then
           ((dedupePreserve ((lookupD ebt "LOC").take 2)).filterMap
             (locEnToken translate)).headD ""
         else (dedupePreserve ((lookupD ebt "LOC").take 2)).headD "")
      else qddKwFallback translate speaker_ko keywords, ?_, ?_⟩
    · rw [gsqQdd, hper]
      simp [hd]
    · by_cases hf : (selectRollcallFocus entities speaker_ko).1 ≠ ""
      · rw [if_pos hf]
        rcases selectRollcallFocus_cases entities speaker_ko with h | h
        · exact absurd h hf
        · exact Or.inr (Or.inl h)
      · rw [if_neg hf]
        by_cases hl : dedupePreserve ((lookupD ebt "LOC").take 2) ≠ []
        · rw [if_pos hl]
          rcases hll : dedupePreserve ((lookupD ebt "LOC").take 2)
            with _ | ⟨a, as⟩
          · exact absurd hll hl
          · refine Or.inr (Or.inr (Or.inl ?_))
            have ha : a ∈ dedupePreserve ((lookupD ebt "LOC").take 2) := by
              rw [hll]; exact List.mem_cons_self _ _
            have := dedupePreserveAux_subset _ [] a ha
            simp only [hll, List.headD_cons]
            exact List.take_subset 2 _ this
        · rw [if_neg hl]
          rcases qddKwFallback_cases translate speaker_ko keywords with h | h
          · exact Or.inl h
          · exact Or.inr (Or.inr (Or.inr h))

/-- **C3 witness.**  The amended structure at a concrete focused-mode input
with a second PERSON and a LOC entity. -/
theorem gsq_rollcall_structure_witness :
    (∃ tp ek : String × String,
      gsqApp (fun s => if s = "트럼프" then "Donald Trump" else s)
          (fun _ => Except.error ())
          [("PER", ["트럼프", "바이든"]), ("LOC", ["서울"])] [] 3 none
          (some "2024-11-29") true true =
        ⟨assembleParts ["트럼프", pyStrip "2024-11-29", tp.1, ek.1],
         assembleParts [speakerEnOf
             (fun s => if s = "트럼프" then "Donald Trump" else s)
             (fun _ => Except.error ()) true "트럼프",
           dateEnApp (pyStrip "2024-11-29"), tp.2, ek.2]⟩ ∧
      (tp.1 = "" ∨ tp.1 ∈ ["트럼프", "바이든"]) ∧
      (ek.1 = "" ∨
        ek.1 ∈ lookupD [("PER", ["트럼프", "바이든"]), ("LOC", ["서울"])] "LOC" ∨
        ek.1 ∈ lookupD [("PER", ["트럼프", "바이든"]), ("LOC", ["서울"])] "ORG" ∨
        ∃ kw ∈ ([] : List (String × ℚ)), ek.1 = pyStrip kw.1)) ∧
    (∃ f : String × String,
      gsqQdd (fun s => if s = "트럼프" then "Donald Trump" else s)
          (fun _ => Except.error ())
          [("PER", ["트럼프", "바이든"]), ("LOC", ["서울"])] [] 3 none
          (some "2024-11-29") true true [⟨"베네수엘라", "B-LC", some "Venezuela"⟩] =
        ⟨assembleParts ["트럼프", "2024-11-29", f.1],
         assembleParts [speakerEnOf
             (fun s => if s = "트럼프" then "Donald Trump" else s)
             (fun _ => Except.error ()) true "트럼프",
           dateEnQdd "2024-11-29", f.2]⟩ ∧
      (f.1 = "" ∨
        (∃ e ∈ [(⟨"베네수엘라", "B-LC", some "Venezuela"⟩ : NEnt)],
          f.1 = pyStrip e.text) ∨
        f.1 ∈ lookupD [("PER", ["트럼프", "바이든"]), ("LOC", ["서울"])] "LOC" ∨
        ∃ kw ∈ ([] : List (String × ℚ)), ∃ raw ∈ pySplit kw.1,
          f.1 = stripParticle (pyStrip raw))) :=
  gsq_rollcall_structure (fun s => if s = "트럼프" then "Donald Trump" else s)
    (fun _ => Except.error ()) [("PER", ["트럼프", "바이든"]), ("LOC", ["서울"])]
    [] 3 none "2024-11-29" true [⟨"베네수엘라", "B-LC", some "Venezuela"⟩]
    "트럼프" ["바이든"] rfl (by decide)

/-- **C3 counterexample.**  As stated ("at most one additional focus
token"), the claim fails on the app version: with a second PERSON and a LOC
entity, the focused-mode queries carry TWO tokens beyond speaker and date
(`바이든` and `서울`) — four whitespace tokens in all. -/
theorem gsqApp_rollcall_two_extra_tokens :
    gsqApp (fun s => if s = "트럼프" then "Donald Trump" else s)
        (fun _ => Except.error ())
        [("PER", ["트럼프", "바이든"]), ("LOC", ["서울"])] [] 3 none
        (some "2024-11-29") true true =
      ⟨some "트럼프 2024-11-29 바이든 서울",
       some "Donald Trump November 29 2024 바이든 서울"⟩ ∧
    (pySplit "트럼프 2024-11-29 바이든 서울").length = 4 := by
  exact ⟨rfl, rfl⟩

/-! ### Character and whitespace facts used for the date-format claim -/

theorem digit_not_ws (c : Char) (h : c.isDigit = true) :
    c.isWhitespace = false := by
  rcases Bool.eq_false_or_eq_true c.isWhitespace with hw | hw
  · exfalso
    have hcases : ((c = ' ' ∨ c = '\t') ∨ c = '\x0d') ∨ c = '\n' := by
      simpa [Char.isWhitespace] using hw
    rcases hcases with ((rfl | rfl) | rfl) | rfl <;> exact absurd h (by decide)
  · exact hw

theorem digit_ne_dash (c : Char) (h : c.isDigit = true) :
    (decide (c = '-') : Bool) = false := by
  simp only [decide_eq_false_iff_not]
  intro hc
  rw [hc] at h
  exact absurd h (by decide)

theorem digit_bounds (c : Char) (h : c.isDigit = true) :
    48 ≤ c.toNat ∧ c.toNat ≤ 57 := by
  simp [Char.isDigit] at h
  exact ⟨h.1, h.2⟩

theorem dropWhile_head_false {p : Char → Bool} {c : Char} {t : List Char}
    (h : List.dropWhile p (c :: t) = c :: t) : p c = false := by
  by_cases hc : p c
  · rw [List.dropWhile_cons_of_pos hc] at h
    have hlen := congrArg List.length h
    have := ((List.dropWhile_suffix p (l := t)).sublist).length_le
    simp at hlen
    omega
  · exact Bool.eq_false_iff.mpr hc

/-- Both dropWhile passes of `pyStrip` fix a string that `pyStrip` fixes. -/
theorem pyStrip_self_facts (s : String) (h : pyStrip s = s) :
    s.data.dropWhile (·.isWhitespace) = s.data ∧
    s.data.reverse.dropWhile (·.isWhitespace) = s.data.reverse := by
  have hdata : (((s.data.dropWhile (·.isWhitespace)).reverse.dropWhile
      (·.isWhitespace)).reverse) = s.data := congrArg String.data h
  have hA : (s.data.dropWhile (·.isWhitespace)).length = s.data.length := by
    have h1 := ((List.dropWhile_suffix (l := s.data)
      (·.isWhitespace)).sublist).length_le
    have h2 := ((List.dropWhile_suffix
      (l := (s.data.dropWhile (·.isWhitespace)).reverse)
      (·.isWhitespace)).sublist).length_le
    have h3 := congrArg List.length hdata
    have h4 : s.data.length = s.length := rfl
    simp at h2 h3
    omega
  have hAeq : s.data.dropWhile (·.isWhitespace) = s.data :=
    (List.dropWhile_suffix _).eq_of_length hA
  refine ⟨hAeq, ?_⟩
  rw [hAeq] at hdata
  have hB : (s.data.reverse.dropWhile (·.isWhitespace)).length =
      s.data.reverse.length := by
    have h3 := congrArg List.length hdata
    simp at h3 ⊢
    omega
  exact (List.dropWhile_suffix _).eq_of_length hB

/-- A `pyStrip`-fixed non-empty string starts with a non-whitespace
character. -/
theorem pyStrip_self_head (s : String) (h : pyStrip s = s) (h0 : s ≠ "") :
    ∃ c t, s.data = c :: t ∧ c.isWhitespace = false := by
  rcases hd : s.data with _ | ⟨c, t⟩
  · exact absurd (by ext1; rw [hd]) h0
  · refine ⟨c, t, rfl, ?_⟩
    have := (pyStrip_self_facts s h).1
    rw [hd] at this
    exact dropWhile_head_false this

/-- `pyStrip` fixes a string whose ends are non-whitespace. -/
theorem pyStrip_eq_self_of_ends (l : List Char) (c1 c2 : Char)
    (t1 t2 : List Char) (h1 : l = c1 :: t1) (hw1 : c1.isWhitespace = false)
    (h2 : l.reverse = c2 :: t2) (hw2 : c2.isWhitespace = false) :
    pyStrip (String.mk l) = String.mk l := by
  unfold pyStrip
  have hd1 : l.dropWhile (·.isWhitespace) = l := by
    rw [h1, List.dropWhile_cons_of_neg (by simp [hw1])]
  have hd2 : l.reverse.dropWhile (·.isWhitespace) = l.reverse := by
    rw [h2, List.dropWhile_cons_of_neg (by simp [hw2])]
  have hfix : ((l.dropWhile (·.isWhitespace)).reverse.dropWhile
      (·.isWhitespace)).reverse = l := by
    rw [hd1, hd2, List.reverse_reverse]
  exact congrArg String.mk hfix

/-- The defining prefix lemma: with non-whitespace first and last characters,
`x` survives as a prefix of the stripped concatenation `x ++ r`. -/
theorem pyStrip_append_prefix (x r : List Char) (c1 c2 : Char)
    (t1 t2 : List Char) (hx : x = c1 :: t1) (hc1 : c1.isWhitespace = false)
    (hxr : x.reverse = c2 :: t2) (hc2 : c2.isWhitespace = false) :
    List.IsPrefix x (pyStrip (String.mk (x ++ r))).data := by
  unfold pyStrip
  have hdx : x.dropWhile (·.isWhitespace) = x := by
    rw [hx, List.dropWhile_cons_of_neg (by simp [hc1])]
  have hstep1 : (x ++ r).dropWhile (·.isWhitespace) = x ++ r := by
    rw [List.dropWhile_append, hdx]
    have : ¬x.isEmpty := by rw [hx]; simp
    simp [List.isEmpty_iff, hx]
  have hdxr : x.reverse.dropWhile (·.isWhitespace) = x.reverse := by
    rw [hxr, List.dropWhile_cons_of_neg (by simp [hc2])]
  show List.IsPrefix x
    ((((x ++ r).dropWhile (·.isWhitespace)).reverse.dropWhile
      (·.isWhitespace)).reverse)
  rw [hstep1, List.reverse_append, List.dropWhile_append, hdxr]
  split
  · rw [List.reverse_reverse]
  · rw [List.reverse_append, List.reverse_reverse]
    exact ⟨_, rfl⟩

/-- `joinSp (a :: b :: rest)` extends `a ++ " " ++ b`. -/
theorem joinSp_cons_cons (a b : String) (rest : List String) :
    ∃ rs : String, joinSp (a :: b :: rest) = (a ++ " " ++ b) ++ rs := by
  cases rest with
  | nil => exact ⟨"", by simp [joinSp]⟩
  | cons c cs =>
    refine ⟨" " ++ joinSp (c :: cs), ?_⟩
    show a ++ " " ++ joinSp (b :: c :: cs) = _
    show a ++ " " ++ (b ++ " " ++ joinSp (c :: cs)) = _
    simp [String.append_assoc]

/-! ### Date-shape lemmas -/

theorem ymdChars_inv (s : String) (ys ms ds : List Char)
    (h : ymdChars s = some (ys, ms, ds)) :
    ∃ y1 y2 y3 y4 m1 m2 d1 d2 : Char,
      ys = [y1, y2, y3, y4] ∧ ms = [m1, m2] ∧ ds = [d1, d2] ∧
      s.data = [y1, y2, y3, y4, '-', m1, m2, '-', d1, d2] ∧
      [y1, y2, y3, y4, m1, m2, d1, d2].all (·.isDigit) := by
  unfold ymdChars at h
  split at h
  · rename_i y1 y2 y3 y4 h1 m1 m2 h2 d1 d2 heq
    split at h
    · rename_i hcond
      obtain ⟨hh1, hh2, hdig⟩ := hcond
      simp only [Option.some_inj, Prod.mk.injEq] at h
      obtain ⟨hys, hms, hds⟩ := h
      exact ⟨y1, y2, y3, y4, m1, m2, d1, d2, hys.symm, hms.symm, hds.symm,
        by rw [heq, hh1, hh2], hdig⟩
    · cases h
  · cases h

theorem validYMD_numbers (s : String) (ys ms ds : List Char)
    (hy : ymdChars s = some (ys, ms, ds)) (hv : validYMD s = true) :
    1 ≤ digitsVal ys ∧ 1 ≤ digitsVal ms ∧ digitsVal ms ≤ 12 ∧
    1 ≤ digitsVal ds ∧ digitsVal ds ≤ daysInMonth (digitsVal ys) (digitsVal ms) := by
  unfold validYMD at hv
  rw [hy] at hv
  simp at hv
  exact ⟨hv.1.1.1.1, hv.1.1.1.2, hv.1.1.2, hv.1.2, hv.2⟩

theorem splitDash_ymd (y1 y2 y3 y4 m1 m2 d1 d2 : Char)
    (hdig : [y1, y2, y3, y4, m1, m2, d1, d2].all (·.isDigit)) :
    splitOnP (fun c => c = '-') [y1, y2, y3, y4, '-', m1, m2, '-', d1, d2] =
      [[y1, y2, y3, y4], [m1, m2], [d1, d2]] := by
  simp only [List.all_cons, List.all_nil, Bool.and_true, Bool.and_eq_true] at hdig
  obtain ⟨hy1, hy2, hy3, hy4, hm1, hm2, hd1, hd2⟩ := hdig
  simp [splitOnP, digit_ne_dash _ hy1, digit_ne_dash _ hy2,
    digit_ne_dash _ hy3, digit_ne_dash _ hy4, digit_ne_dash _ hm1,
    digit_ne_dash _ hm2, digit_ne_dash _ hd1, digit_ne_dash _ hd2]

theorem pad2Chars_digits (d1 d2 : Char) (h1 : d1.isDigit = true)
    (h2 : d2.isDigit = true) : pad2Chars (digitsVal [d1, d2]) = [d1, d2] := by
  obtain ⟨l1, u1⟩ := digit_bounds d1 h1
  obtain ⟨l2, u2⟩ := digit_bounds d2 h2
  unfold pad2Chars digitsVal
  simp only [List.foldl]
  have hdiv : ((0 * 10 + (d1.toNat - 48)) * 10 + (d2.toNat - 48)) / 10 =
      d1.toNat - 48 := by omega
  have hmod : ((0 * 10 + (d1.toNat - 48)) * 10 + (d2.toNat - 48)) % 10 =
      d2.toNat - 48 := by omega
  rw [hdiv, hmod]
  have e1 : 48 + (d1.toNat - 48) = d1.toNat := by omega
  have e2 : 48 + (d2.toNat - 48) = d2.toNat := by omega
  rw [e1, e2, Char.ofNat_toNat, Char.ofNat_toNat]

/-- On a strict valid `YYYY-MM-DD` string the qdd2 date conversion agrees
with the app one. -/
theorem dateEnQdd_strict (s : String) (hv : validYMD s = true) :
    dateEnQdd s = formatBdY s := by
  rcases hy : ymdChars s with _ | ⟨ys, ms, ds⟩
  · unfold validYMD at hv
    rw [hy] at hv
    cases hv
  · obtain ⟨y1, y2, y3, y4, m1, m2, d1, d2, hys, hms, hds, hdata, hdig⟩ :=
      ymdChars_inv s ys ms ds hy
    obtain ⟨hn1, hn2, hn3, hn4, hn5⟩ := validYMD_numbers s ys ms ds hy hv
    have hdig' := hdig
    simp only [List.all_cons, List.all_nil, Bool.and_true,
      Bool.and_eq_true] at hdig'
    obtain ⟨hy1, hy2, hy3, hy4, hm1, hm2, hd1, hd2⟩ := hdig'
    subst hys
    subst hms
    subst hds
    have hflex : flexYMD s =
        some ([y1, y2, y3, y4], digitsVal [m1, m2], digitsVal [d1, d2]) := by
      unfold flexYMD
      rw [hdata, splitDash_ymd y1 y2 y3 y4 m1 m2 d1 d2 hdig]
      simp [hy1, hy2, hy3, hy4, hm1, hm2, hd1, hd2, hn1, hn2, hn3, hn4, hn5]
    unfold dateEnQdd formatBdY
    rw [hflex, hy]
    dsimp only
    rw [pad2Chars_digits d1 d2 hd1 hd2]

/-- On a strict valid date string the app conversion is the formatter. -/
theorem dateEnApp_strict (s : String) (hv : validYMD s = true) :
    dateEnApp s = formatBdY s := by
  unfold dateEnApp
  rw [if_pos hv]

theorem month_head (m : Nat) (h1 : 1 ≤ m) (h2 : m ≤ 12) :
    ∃ c t, (monthNames.getD (m - 1) "").data = c :: t ∧
      c.isWhitespace = false := by
  interval_cases m <;> exact ⟨_, _, rfl, by decide⟩

theorem dropLeadZeros_rev (ys : List Char) (hall : ys.all (·.isDigit) = true) :
    ∃ c t, (dropLeadZeros ys).reverse = c :: t ∧ c.isDigit = true := by
  unfold dropLeadZeros
  rcases hr : ys.dropWhile (· = '0') with _ | ⟨c, cs⟩
  · exact ⟨'0', [], rfl, by decide⟩
  · rcases hrev : (c :: cs).reverse with _ | ⟨c', t'⟩
    · exact absurd hrev (by simp)
    · refine ⟨c', t', rfl, ?_⟩
      have hc' : c' ∈ c :: cs := by
        rw [← List.mem_reverse, hrev]
        exact List.mem_cons_self _ _
      have hsub : c' ∈ ys :=
        ((List.dropWhile_suffix (· = '0')).sublist).subset (hr ▸ hc')
      exact List.all_eq_true.mp hall c' hsub

/-- The ends of a strict valid date string are digits. -/
theorem strict_date_facts (s : String) (hv : validYMD s = true) :
    pyStrip s = s ∧ s ≠ "" ∧
    (∃ c1 t1, s.data = c1 :: t1 ∧ c1.isWhitespace = false) ∧
    (∃ c2 t2, s.data.reverse = c2 :: t2 ∧ c2.isWhitespace = false) := by
  rcases hy : ymdChars s with _ | ⟨ys, ms, ds⟩
  · unfold validYMD at hv
    rw [hy] at hv
    cases hv
  · obtain ⟨y1, y2, y3, y4, m1, m2, d1, d2, hys, hms, hds, hdata, hdig⟩ :=
      ymdChars_inv s ys ms ds hy
    simp only [List.all_cons, List.all_nil, Bool.and_true,
      Bool.and_eq_true] at hdig
    obtain ⟨hy1, _, _, _, _, _, _, hd2⟩ := hdig
    have hhead : s.data = y1 :: [y2, y3, y4, '-', m1, m2, '-', d1, d2] := hdata
    have hrev : s.data.reverse =
        d2 :: [d1, '-', m2, m1, '-', y4, y3, y2, y1] := by
      rw [hdata]; rfl
    have hw1 := digit_not_ws y1 hy1
    have hw2 := digit_not_ws d2 hd2
    refine ⟨?_, ?_, ⟨y1, _, hhead, hw1⟩, ⟨d2, _, hrev, hw2⟩⟩
    · exact pyStrip_eq_self_of_ends s.data y1 d2 _ _ hhead hw1 hrev hw2
    · intro h0
      rw [h0] at hdata
      cases hdata

/-- The formatted date is non-empty and ends in a digit. -/
theorem formatBdY_facts (s : String) (hv : validYMD s = true) :
    formatBdY s ≠ "" ∧
    ∃ c t, (formatBdY s).data.reverse = c :: t ∧ c.isWhitespace = false := by
  rcases hy : ymdChars s with _ | ⟨ys, ms, ds⟩
  · unfold validYMD at hv
    rw [hy] at hv
    cases hv
  · obtain ⟨y1, y2, y3, y4, m1, m2, d1, d2, hys, hms, hds, hdata, hdig⟩ :=
      ymdChars_inv s ys ms ds hy
    have hfmt : formatBdY s = (monthNames.getD (digitsVal ms - 1) "") ++ " " ++
        String.mk ds ++ " " ++ String.mk (dropLeadZeros ys) := by
      unfold formatBdY
      rw [hy]
    have hysdig : ys.all (·.isDigit) = true := by
      subst hys
      simp only [List.all_cons, List.all_nil, Bool.and_true,
        Bool.and_eq_true] at hdig ⊢
      exact ⟨hdig.1, hdig.2.1, hdig.2.2.1, hdig.2.2.2.1⟩
    obtain ⟨c, t, hct, hcd⟩ := dropLeadZeros_rev ys hysdig
    have hdatarev : (formatBdY s).data.reverse =
        c :: (t ++ ([' '] ++ ds.reverse ++ [' '] ++
          (monthNames.getD (digitsVal ms - 1) "").data.reverse)) := by
      rw [hfmt]
      show ((((monthNames.getD (digitsVal ms - 1) "").data ++ [' '] ++ ds ++
        [' ']) ++ dropLeadZeros ys).reverse) = _
      rw [List.reverse_append, hct]
      simp
    refine ⟨?_, c, _, hdatarev, digit_not_ws c hcd⟩
    intro h0
    have : (formatBdY s).data.reverse = [] := by rw [h0]; rfl
    rw [hdatarev] at this
    cases this

/-- Assembling parts headed by a strip-fixed non-empty token and a non-empty
token with a non-whitespace last character yields a string extending
`a ++ " " ++ b`. -/
theorem assembleParts_starts (a b : String) (rest : List String)
    (ha : pyStrip a = a) (ha0 : a ≠ "") (hb0 : b ≠ "") (c2 : Char)
    (t2 : List Char) (hb2 : b.data.reverse = c2 :: t2)
    (hw2 : c2.isWhitespace = false) :
    ∃ s, assembleParts (a :: b :: rest) = some s ∧
      List.IsPrefix (a ++ " " ++ b).data s.data := by
  obtain ⟨c1, t1, hhead, hw1⟩ := pyStrip_self_head a ha ha0
  have hfilt : (a :: b :: rest).filter (· ≠ "") =
      a :: b :: rest.filter (· ≠ "") := by
    simp [List.filter_cons, ha0, hb0]
  obtain ⟨rs, hjoin⟩ := joinSp_cons_cons a b (rest.filter (· ≠ ""))
  have hXdata : (a ++ " " ++ b).data = a.data ++ (' ' :: b.data) := by
    show (a.data ++ " ".data) ++ b.data = _
    simp
  have hXhead : (a ++ " " ++ b).data = c1 :: (t1 ++ (' ' :: b.data)) := by
    rw [hXdata, hhead]
    rfl
  have hXrev : (a ++ " " ++ b).data.reverse =
      c2 :: (t2 ++ ([' '] ++ a.data.reverse)) := by
    rw [hXdata, List.reverse_append, List.reverse_cons, hb2]
    simp
  have hpre := pyStrip_append_prefix (a ++ " " ++ b).data rs.data c1 c2 _ _
    hXhead hw1 hXrev hw2
  have hval : assembleParts (a :: b :: rest) =
      strOpt (pyStrip ((a ++ " " ++ b) ++ rs)) := by
    unfold assembleParts
    rw [hfilt, hjoin]
  have harg : pyStrip ((a ++ " " ++ b) ++ rs) =
      pyStrip (String.mk ((a ++ " " ++ b).data ++ rs.data)) := rfl
  refine ⟨pyStrip ((a ++ " " ++ b) ++ rs), ?_, ?_⟩
  · rw [hval]
    unfold strOpt
    rw [if_neg ?hne]
    case hne =>
      intro h0
      have hd0 : (pyStrip ((a ++ " " ++ b) ++ rs)).data = [] := by
        rw [h0]
      rw [harg] at hd0
      obtain ⟨tt, htt⟩ := hpre
      rw [hd0] at htt
      rw [hXhead] at htt
      cases htt
  · rw [harg]
    exact hpre

/-- **C4 (amended).**  In focused mode with a strict `YYYY-MM-DD` article
date, the English query of both versions starts with the speaker followed by
the date formatted as `Month DD YYYY` — `%B %d %Y`, with NO comma — while
the Korean query carries the date string itself in the same position
(speaker tokens assumed non-empty and free of surrounding whitespace). -/
theorem gsq_rollcall_date_formatting (resolve : String → String)
    (translate : String → Except Unit String) (ebt : TypeIndex)
    (keywords : List (String × ℚ)) (top_k : Nat) (quote_sentence : Option String)
    (use_wikidata : Bool) (entities : List NEnt) (speaker_ko : String)
    (pers : List String) (hper : lookupD ebt "PER" = speaker_ko :: pers)
    (d : String) (hv : validYMD d = true)
    (hko : pyStrip speaker_ko = speaker_ko) (hko0 : speaker_ko ≠ "")
    (hen : pyStrip (speakerEnOf resolve translate use_wikidata speaker_ko) =
      speakerEnOf resolve translate use_wikidata speaker_ko)
    (hen0 : speakerEnOf resolve translate use_wikidata speaker_ko ≠ "") :
    dateEnApp d = formatBdY d ∧ dateEnQdd d = formatBdY d ∧
    (∃ s, (gsqApp resolve translate ebt keywords top_k quote_sentence (some d)
        true use_wikidata).en = some s ∧
      List.IsPrefix (speakerEnOf resolve translate use_wikidata speaker_ko ++
        " " ++ formatBdY d).data s.data) ∧
    (∃ s, (gsqApp resolve translate ebt keywords top_k quote_sentence (some d)
        true use_wikidata).ko = some s ∧
      List.IsPrefix (speaker_ko ++ " " ++ d).data s.data) ∧
    (∃ s, (gsqQdd resolve translate ebt keywords top_k quote_sentence (some d)
        true use_wikidata entities).en = some s ∧
      List.IsPrefix (speakerEnOf resolve translate use_wikidata speaker_ko ++
        " " ++ formatBdY d).data s.data) ∧
    (∃ s, (gsqQdd resolve translate ebt keywords top_k quote_sentence (some d)
        true use_wikidata entities).ko = some s ∧
      List.IsPrefix (speaker_ko ++ " " ++ d).data s.data) := by
  obtain ⟨hstrip, hd0, ⟨cd1, td1, hdhead, hdw1⟩, ⟨cd2, td2, hdrev, hdw2⟩⟩ :=
    strict_date_facts d hv
  obtain ⟨hf0, cf, tf, hfrev, hfw⟩ := formatBdY_facts d hv
  have happ := dateEnApp_strict d hv
  have hqdd := dateEnQdd_strict d hv
  have hredApp : gsqApp resolve translate ebt keywords top_k quote_sentence
      (some d) true use_wikidata =
      ⟨assembleParts [speaker_ko, pyStrip d,
        (appTargetPer translate (speaker_ko :: pers) speaker_ko).1,
        (appExtraKw translate ebt keywords speaker_ko).1],
       assembleParts [speakerEnOf resolve translate use_wikidata speaker_ko,
        dateEnApp (pyStrip d),
        (appTargetPer translate (speaker_ko :: pers) speaker_ko).2,
        (appExtraKw translate ebt keywords speaker_ko).2]⟩ := by
    rw [gsqApp, hper]
    simp
  have hredQdd : gsqQdd resolve translate ebt keywords top_k quote_sentence
      (some d) true use_wikidata entities =
      ⟨assembleParts [speaker_ko, d,
        (if (selectRollcallFocus entities speaker_ko).1 ≠ "" then
          selectRollcallFocus entities speaker_ko
        else if dedupePreserve ((lookupD ebt "LOC").take 2) ≠ [] then
          ((dedupePreserve ((lookupD ebt "LOC").take 2)).headD "",
           if (dedupePreserve ((lookupD ebt "LOC").take 2)).filterMap
               (locEnToken translate) ≠ [] then
             ((dedupePreserve ((lookupD ebt "LOC").take 2)).filterMap
               (locEnToken translate)).headD ""
           else (dedupePreserve ((lookupD ebt "LOC").take 2)).headD "")
        else qddKwFallback translate speaker_ko keywords).1],
       assembleParts [speakerEnOf resolve translate use_wikidata speaker_ko,
        dateEnQdd d,
        (if (selectRollcallFocus entities speaker_ko).1 ≠ "" then
          selectRollcallFocus entities speaker_ko
        else if dedupePreserve ((lookupD ebt "LOC").take 2) ≠ [] then
          ((dedupePreserve ((lookupD ebt "LOC").take 2)).headD "",
           if (dedupePreserve ((lookupD ebt "LOC").take 2)).filterMap
               (locEnToken translate) ≠ [] then
             ((dedupePreserve ((lookupD ebt "LOC").take 2)).filterMap
               (locEnToken translate)).headD ""
           else (dedupePreserve ((lookupD ebt "LOC").take 2)).headD "")
        else qddKwFallback translate speaker_ko keywords).2]⟩ := by
    rw [gsqQdd, hper]
    simp [hd0]
  refine ⟨happ, hqdd, ?_, ?_, ?_, ?_⟩
  · obtain ⟨s, hs, hpre⟩ := assembleParts_starts
      (speakerEnOf resolve translate use_wikidata speaker_ko) (formatBdY d)
      [(appTargetPer translate (speaker_ko :: pers) speaker_ko).2,
       (appExtraKw translate ebt keywords speaker_ko).2]
      hen hen0 hf0 cf tf hfrev hfw
    refine ⟨s, ?_, hpre⟩
    rw [hredApp]
    show assembleParts [speakerEnOf resolve translate use_wikidata speaker_ko,
      dateEnApp (pyStrip d), _, _] = some s
    rw [hstrip, happ]
    exact hs
  · obtain ⟨s, hs, hpre⟩ := assembleParts_starts speaker_ko d
      [(appTargetPer translate (speaker_ko :: pers) speaker_ko).1,
       (appExtraKw translate ebt keywords speaker_ko).1]
      hko hko0 hd0 cd2 td2 hdrev hdw2
    refine ⟨s, ?_, hpre⟩
    rw [hredApp]
    show assembleParts [speaker_ko, pyStrip d, _, _] = some s
    rw [hstrip]
    exact hs
  · obtain ⟨s, hs, hpre⟩ := assembleParts_starts
      (speakerEnOf resolve translate use_wikidata speaker_ko) (formatBdY d)
      [(if (selectRollcallFocus entities speaker_ko).1 ≠ "" then
          selectRollcallFocus entities speaker_ko
        else if dedupePreserve ((lookupD ebt "LOC").take 2) ≠ [] then
          ((dedupePreserve ((lookupD ebt "LOC").take 2)).headD "",
           if (dedupePreserve ((lookupD ebt "LOC").take 2)).filterMap
               (locEnToken translate) ≠ [] then
             ((dedupePreserve ((lookupD ebt "LOC").take 2)).filterMap
               (locEnToken translate)).headD ""
           else (dedupePreserve ((lookupD ebt "LOC").take 2)).headD "")
        else qddKwFallback translate speaker_ko keywords).2]
      hen hen0 hf0 cf tf hfrev hfw
    refine ⟨s, ?_, hpre⟩
    rw [hredQdd]
    show assembleParts [speakerEnOf resolve translate use_wikidata speaker_ko,
      dateEnQdd d, _] = some s
    rw [hqdd]
    exact hs
  · obtain ⟨s, hs, hpre⟩ := assembleParts_starts speaker_ko d
      [(if (selectRollcallFocus entities speaker_ko).1 ≠ "" then
          selectRollcallFocus entities speaker_ko
        else if dedupePreserve ((lookupD ebt "LOC").take 2) ≠ [] then
          ((dedupePreserve ((lookupD ebt "LOC").take 2)).headD "",
           if (dedupePreserve ((lookupD ebt "LOC").take 2)).filterMap
               (locEnToken translate) ≠ [] then
             ((dedupePreserve ((lookupD ebt "LOC").take 2)).filterMap
               (locEnToken translate)).headD ""
           else (dedupePreserve ((lookupD ebt "LOC").take 2)).headD "")
        else qddKwFallback translate speaker_ko keywords).1]
      hko hko0 hd0 cd2 td2 hdrev hdw2
    refine ⟨s, ?_, hpre⟩
    rw [hredQdd]
    exact hs

/-- **C4 witness.**  The amended formatting at the concrete date
`"2024-11-29"` and a lexicon-resolved speaker. -/
theorem gsq_rollcall_date_formatting_witness :
    dateEnApp "2024-11-29" = formatBdY "2024-11-29" ∧
    dateEnQdd "2024-11-29" = formatBdY "2024-11-29" ∧
    (∃ s, (gsqApp (fun s => if s = "트럼프" then "Donald Trump" else s)
        (fun _ => Except.error ()) [("PER", ["트럼프"])] [] 3 none
        (some "2024-11-29") true true).en = some s ∧
      List.IsPrefix (speakerEnOf
          (fun s => if s = "트럼프" then "Donald Trump" else s)
          (fun _ => Except.error ()) true "트럼프" ++ " " ++
        formatBdY "2024-11-29").data s.data) ∧
    (∃ s, (gsqApp (fun s => if s = "트럼프" then "Donald Trump" else s)
        (fun _ => Except.error ()) [("PER", ["트럼프"])] [] 3 none
        (some "2024-11-29") true true).ko = some s ∧
      List.IsPrefix ("트럼프" ++ " " ++ "2024-11-29").data s.data) ∧
    (∃ s, (gsqQdd (fun s => if s = "트럼프" then "Donald Trump" else s)
        (fun _ => Except.error ()) [("PER", ["트럼프"])] [] 3 none
        (some "2024-11-29") true true []).en = some s ∧
      List.IsPrefix (speakerEnOf
          (fun s => if s = "트럼프" then "Donald Trump" else s)
          (fun _ => Except.error ()) true "트럼프" ++ " " ++
        formatBdY "2024-11-29").data s.data) ∧
    (∃ s, (gsqQdd (fun s => if s = "트럼프" then "Donald Trump" else s)
        (fun _ => Except.error ()) [("PER", ["트럼프"])] [] 3 none
        (some "2024-11-29") true true []).ko = some s ∧
      List.IsPrefix ("트럼프" ++ " " ++ "2024-11-29").data s.data) :=
  gsq_rollcall_date_formatting
    (fun s => if s = "트럼프" then "Donald Trump" else s)
    (fun _ => Except.error ()) [("PER", ["트럼프"])] [] 3 none true []
    "트럼프" [] rfl "2024-11-29" (by decide) (by decide) (by decide)
    (by decide) (by decide)

/-- **C4 counterexample.**  The claim's `Month DD, YYYY` (with a comma)
never appears: on `"2024-11-29"` the code's `strftime("%B %d %Y")` yields
`"November 29 2024"`, and the assembled English query does not contain
`"November 29, 2024"`. -/
theorem gsq_rollcall_date_no_comma :
    gsqApp (fun s => if s = "트럼프" then "Donald Trump" else s)
        (fun _ => Except.error ()) [("PER", ["트럼프"])] [] 3 none
        (some "2024-11-29") true true =
      ⟨some "트럼프 2024-11-29", some "Donald Trump November 29 2024"⟩ ∧
    formatBdY "2024-11-29" = "November 29 2024" ∧
    pyIn "November 29, 2024" "Donald Trump November 29 2024" = false := by
  exact ⟨rfl, rfl, by decide⟩

end QDD2
